import Mathlib

/-!
Verification development for the SEO article generator repository
(modules: api_client, article_links, seo_utils, image_search, article_generator).

Python strings are modelled as lists of characters (abbrev Str), because the
embedded functions must be executable by the kernel on concrete inputs.
External effects (HTTP calls, the filesystem clock, the slugify library,
exceptions raised by libraries) are modelled as explicit oracle parameters;
everything else is translated directly from the Python source.
-/

set_option linter.unusedVariables false

abbrev Str := List Char

/-! ## api_client.py -/

/-- State of GeminiClient: the credential pool with its cursor and the model
rotation sequence with its cursor (fields as in GeminiClient.__init__). -/
structure GeminiClient where
  api_keys : List Str
  current_key_index : Nat
  models : List Str
  current_model_index : Nat
deriving Repr, DecidableEq

/-- The fixed model rotation sequence set in GeminiClient.__init__. -/
def geminiModels : List Str := [("gemini-1.5-flash").data, ("gemini-2.0-flash").data]

/-- GeminiClient.__init__: store the key pool, both cursors start at 0. -/
def mkGeminiClient (api_keys : List Str) : GeminiClient :=
  { api_keys := api_keys, current_key_index := 0
    models := geminiModels, current_model_index := 0 }

/-- GeminiClient._get_current_key; none models the ValueError raised on an
empty pool (and an IndexError on an out-of-range cursor). -/
def GeminiClient.getCurrentKey (c : GeminiClient) : Option Str :=
  c.api_keys[c.current_key_index]?

/-- GeminiClient._get_current_model; none models an IndexError on an
out-of-range cursor. -/
def GeminiClient.getCurrentModel (c : GeminiClient) : Option Str :=
  c.models[c.current_model_index]?

/-- GeminiClient._rotate_key: advance the credential cursor modulo pool size.
(In the source this raises on an empty pool; generate_content only reaches it
after _get_current_key succeeded, so the pool is nonempty at every call site.) -/
def GeminiClient.rotateKey (c : GeminiClient) : GeminiClient :=
  { c with current_key_index := (c.current_key_index + 1) % c.api_keys.length }

/-- GeminiClient._rotate_model: advance the model cursor modulo sequence length. -/
def GeminiClient.rotateModel (c : GeminiClient) : GeminiClient :=
  { c with current_model_index := (c.current_model_index + 1) % c.models.length }

/-- Outcome of one HTTP attempt against the generative endpoint, as
distinguished by the branches of generate_content: a successful response with
at least one candidate, a response without candidates, an HTTP 429, another
HTTP error, or any other exception. -/
inductive ApiOutcome where
  | success (text : Str)
  | noCandidates
  | rateLimited
  | httpError
  | exn
deriving Repr, DecidableEq

/-- The retry loop of GeminiClient.generate_content. fuel counts the remaining
attempts (max_retries - retry_count), n numbers the attempt for the network
oracle, reqs records the (api_key, model) pair each attempt built its request
against. Every failure branch rotates BOTH cursors and retries; success
returns the text immediately; an exhausted loop returns none. -/
def genAttempts (oracle : Nat → ApiOutcome) (model : Str) :
    Nat → Nat → GeminiClient → List (Str × Str) →
    Except Str (Option Str × GeminiClient × List (Str × Str))
  | 0, _, c, reqs => .ok (none, c, reqs)
  | fuel + 1, n, c, reqs =>
    match c.getCurrentKey with
    | none => .error ("No API keys available").data
    | some key =>
      let reqs' := reqs ++ [(key, model)]
      match oracle n with
      | .success t => .ok (some t, c, reqs')
      | .noCandidates => genAttempts oracle model fuel (n + 1) (c.rotateKey.rotateModel) reqs'
      | .rateLimited => genAttempts oracle model fuel (n + 1) (c.rotateKey.rotateModel) reqs'
      | .httpError => genAttempts oracle model fuel (n + 1) (c.rotateKey.rotateModel) reqs'
      | .exn => genAttempts oracle model fuel (n + 1) (c.rotateKey.rotateModel) reqs'

/-- The model-resolution step at the top of generate_content:
"if not model: model = self._get_current_model()". The Python falsy test also
treats an empty string as unspecified. -/
def resolveModel (c : GeminiClient) (modelArg : Option Str) : Except Str Str :=
  match modelArg with
  | none =>
    match c.getCurrentModel with
    | some m => .ok m
    | none => .error ("IndexError: model cursor out of range").data
  | some m =>
    if m = [] then
      match c.getCurrentModel with
      | some m' => .ok m'
      | none => .error ("IndexError: model cursor out of range").data
    else .ok m

/-- GeminiClient.generate_content. The model argument is resolved ONCE before
the loop; the resolved value is then used by every attempt. The result
carries the generated text (none when all retries failed), the final client
state and the request trace. -/
def generate_content (c : GeminiClient) (oracle : Nat → ApiOutcome) (modelArg : Option Str)
    (max_retries : Nat) :
    Except Str (Option Str × GeminiClient × List (Str × Str)) :=
  match resolveModel c modelArg with
  | .error e => .error e
  | .ok model => genAttempts oracle model max_retries 0 c []

/-- k-fold iteration of the coupled rotation performed on a failed attempt:
rotate the credential cursor and the model cursor together. -/
def rotBoth : Nat → GeminiClient → GeminiClient
  | 0, c => c
  | k + 1, c => rotBoth k (c.rotateKey.rotateModel)

/-- Network oracle for the concrete run refuting C1: the first attempt fails
with an HTTP error and the second succeeds. -/
def oracleC1 : Nat → ApiOutcome :=
  fun n => if n = 0 then .httpError else .success ("ok").data

/-- Cursor bounds invariant of a client (claim C10); indices are naturals, so
the lower bound 0 is implicit in the type. -/
def GeminiClient.WF (c : GeminiClient) : Prop :=
  c.current_key_index < c.api_keys.length ∧ c.current_model_index < c.models.length

instance (c : GeminiClient) : Decidable c.WF := by unfold GeminiClient.WF; infer_instance

/-- Client states reachable from construction with a nonempty credential pool
through any sequence of rotations and generate_content calls. -/
inductive ClientReachable : GeminiClient → Prop where
  | init (keys : List Str) (h : keys ≠ []) : ClientReachable (mkGeminiClient keys)
  | rotK {c : GeminiClient} : ClientReachable c → ClientReachable c.rotateKey
  | rotM {c : GeminiClient} : ClientReachable c → ClientReachable c.rotateModel
  | gen {c : GeminiClient} {oracle : Nat → ApiOutcome} {modelArg : Option Str}
      {max_retries : Nat} {res : Option Str} {c' : GeminiClient} {reqs : List (Str × Str)} :
      ClientReachable c →
      generate_content c oracle modelArg max_retries = .ok (res, c', reqs) →
      ClientReachable c'

/-! ## Python string primitives (shared) -/

/-- str.lower() (per character). -/
def pyLower (s : Str) : Str := s.map Char.toLower

/-- Accumulator worker for str.split() with no argument. -/
def splitWsAux : Str → Str → List Str
  | [], acc => if acc.isEmpty then [] else [acc.reverse]
  | c :: s, acc =>
    if c.isWhitespace then
      if acc.isEmpty then splitWsAux s [] else acc.reverse :: splitWsAux s []
    else splitWsAux s (c :: acc)

/-- str.split() with no argument: split on whitespace runs, no empty parts. -/
def pySplitWs (s : Str) : List Str := splitWsAux s []

/-! ## article_links.py -/

/-- One record of the article-links store (a dict in article_links.json). -/
structure LinkArticle where
  title : Str
  subject : Str
  permalink : Str
  timestamp : Str
deriving Repr, DecidableEq

/-- One scored entry built by ArticleLinksManager.get_related_articles (the
source keeps the score inside the returned dict). -/
structure ScoredArticle where
  title : Str
  permalink : Str
  score : Nat
deriving Repr, DecidableEq

/-- ArticleLinksManager.add_article acting on the in-memory list: refuse a
duplicate permalink, else append a record (timestamp comes from the clock,
passed as a parameter). Persistence of the list is the caller's file I/O. -/
def add_article (articles : List LinkArticle) (title subject permalink timestamp : Str) :
    Bool × List LinkArticle :=
  if articles.any (fun a => a.permalink == permalink) then (false, articles)
  else (true, articles ++ [⟨title, subject, permalink, timestamp⟩])

/-- len(set(subject.lower().split()) & set(other.lower().split())): the number
of distinct lowercase words shared by the two subjects. -/
def wordOverlap (subject other : Str) : Nat :=
  (((pySplitWs (pyLower subject)).dedup).filter
    (fun w => w ∈ pySplitWs (pyLower other))).length

/-- The scoring loop of get_related_articles: skip the current permalink,
keep records with positive overlap, preserving storage order. -/
def relatedScored (articles : List LinkArticle) (subject current_permalink : Str) :
    List ScoredArticle :=
  articles.filterMap (fun a =>
    if a.permalink == current_permalink then none
    else
      let overlap := wordOverlap subject a.subject
      if overlap > 0 then some ⟨a.title, a.permalink, overlap⟩ else none)

/-- Stable insertion for the descending sort: an element moves before the
first list element whose score does not exceed it. -/
def insertDesc (x : ScoredArticle) : List ScoredArticle → List ScoredArticle
  | [] => [x]
  | y :: ys => if y.score ≤ x.score then x :: y :: ys else y :: insertDesc x ys

/-- scored_articles.sort(key score, reverse=True): Python list.sort is stable,
and a stable descending sort is exactly this insertion sort. -/
def sortDesc : List ScoredArticle → List ScoredArticle
  | [] => []
  | x :: xs => insertDesc x (sortDesc xs)

/-- ArticleLinksManager.get_related_articles: score, stable-sort descending,
return the top max_links. -/
def get_related_articles (articles : List LinkArticle) (subject current_permalink : Str)
    (max_links : Nat) : List ScoredArticle :=
  (sortDesc (relatedScored articles subject current_permalink)).take max_links

/-- Store state with a preexisting duplicate permalink, used to refute claim
C4 as universally stated (such a state can only arise from a hand-edited or
corrupt article_links.json, not from add_article itself). -/
def dupStore : List LinkArticle :=
  [⟨("t1").data, ("s1").data, ("p").data, ("ts1").data⟩,
   ⟨("t2").data, ("s2").data, ("p").data, ("ts2").data⟩]

/-- Python substring test (the "in" operator on str). -/
def subStr (needle : Str) : Str → Bool
  | [] => needle.isEmpty
  | c :: h => needle.isPrefixOf (c :: h) || subStr needle (h)

/-! ## seo_utils.py -/

/-- The stop-word list of generate_tags_from_title. -/
def stopWords : List Str :=
  [("yang").data, ("untuk").data, ("dengan").data, ("adalah").data, ("dari").data,
   ("cara").data, ("tips").data, ("trik").data, ("dan").data, ("atau").data,
   ("jika").data, ("maka").data, ("namun").data, ("tetapi").data, ("juga").data,
   ("oleh").data, ("the").data, ("and").data, ("that").data, ("this").data,
   ("with").data, ("for").data, ("from").data, ("how").data, ("what").data,
   ("when").data, ("why").data, ("where").data, ("who").data, ("will").data,
   ("your").data, ("their").data, ("our").data, ("its").data]

/-- The  .replace(':', ' ').replace('-', ' ').replace(',', ' ').replace('.', ' ')
normalisation applied to the lowered title. -/
def punctToSpace (s : Str) : Str :=
  s.map (fun c => if c = ':' ∨ c = '-' ∨ c = ',' ∨ c = '.' then ' ' else c)

/-- The 2-word contiguous phrases of the title whose words are no stop words
(title parts carry no whitespace, so the phrase re-split in the source yields
exactly the two parts). -/
def twoWordPhrases (parts : List Str) : List Str :=
  (parts.zip parts.tail).filterMap (fun p =>
    if !stopWords.contains p.1 && !stopWords.contains p.2
    then some (p.1 ++ [' '] ++ p.2) else none)

/-- The 3-word contiguous phrases of the title whose words are no stop words. -/
def threeWordPhrases (parts : List Str) : List Str :=
  (parts.zip (parts.tail.zip parts.tail.tail)).filterMap (fun p =>
    if !stopWords.contains p.1 && !stopWords.contains p.2.1 && !stopWords.contains p.2.2
    then some (p.1 ++ [' '] ++ p.2.1 ++ [' '] ++ p.2.2) else none)

/-- The single-word collection loop: keep a word unless it occurs as a
substring of a chosen phrase or was collected already, preserving first-seen
order. -/
def singleWords (all_tags : List Str) (candidates : List Str) : List Str :=
  candidates.foldl (fun sw w =>
    if all_tags.any (fun p => subStr w p) || sw.contains w then sw else sw ++ [w]) []

/-- The final return of generate_tags_from_title:
"return all_tags[:5] if all_tags else [subject.split()[0]]"; none models the
IndexError raised when all_tags is empty and the subject has no words. -/
def finishTags (all_tags : List Str) (subject : Str) : Option (List Str) :=
  if all_tags.isEmpty then (pySplitWs subject).head?.map (fun w => [w])
  else some (all_tags.take 5)

/-- seo_utils.generate_tags_from_title. The source builds title_phrases as
the 2-word phrases followed by the 3-word phrases and then filters by word
count; since title parts carry no whitespace that filter recovers exactly the
two phrase lists, used directly here. -/
def generate_tags_from_title (title subject : Str) : Option (List Str) :=
  let clean_title := punctToSpace (pyLower title)
  let clean_subject := pyLower subject
  let title_parts := pySplitWs clean_title
  let title_words := (pySplitWs clean_title).filter
    (fun w => decide (w.length > 3) && !stopWords.contains w)
  let subject_words := (pySplitWs clean_subject).filter
    (fun w => decide (w.length > 3) && !stopWords.contains w)
  let base := (threeWordPhrases title_parts).take 2 ++ (twoWordPhrases title_parts).take 2
  let remaining := 5 - base.length
  let all_tags :=
    if remaining > 0
    then base ++ (singleWords base (title_words ++ subject_words)).take remaining
    else base
  finishTags all_tags subject

/-- Decimal rendering of a natural number (used for the "image {i+1}" titles). -/
def natToStrAux : Nat → Nat → Str
  | 0, _ => []
  | fuel + 1, n =>
    if n < 10 then [Char.ofNat (48 + n)]
    else natToStrAux fuel (n / 10) ++ [Char.ofNat (48 + n % 10)]

/-- Decimal rendering of a natural number. -/
def natToStr (n : Nat) : Str := natToStrAux (n + 1) n

/-- ' '.join(words). -/
def joinWords : List Str → Str
  | [] => []
  | [w] => w
  | w :: ws => w ++ ' ' :: joinWords ws

/-- int(s) for a digit string. -/
def pyNat (s : Str) : Nat := s.foldl (fun n c => n * 10 + (c.toNat - 48)) 0

/-! ## image_search.py -/

/-- One image candidate dict {url, title, source}. -/
structure ImageRec where
  url : Str
  title : Str
  source : Str
deriving Repr, DecidableEq

/-- The memoisation cache attached to is_valid_image_url (a dict from URL to
boolean); newest entries are consed in front, as dict assignment shadows. -/
abbrev UrlCache := List (Str × Bool)

/-- Response data of the HEAD request used by is_valid_image_url. -/
structure HeadResp where
  status : Nat
  content_type : Str
  content_length : Option Str
deriving Repr, DecidableEq

/-- The network world seen by is_valid_image_url: the HEAD request (none
models a raised network exception) and the partial ranged GET returning the
length of the first streamed chunk (none models an exception there, including
StopIteration on an empty body). -/
structure UrlNetEnv where
  head : Str → Option HeadResp
  rangeChunk : Str → Option Nat

/-- The extension denylist of is_valid_image_url. -/
def badExts : List Str :=
  [(".gif").data, (".svg").data, (".webp").data, (".ico").data, (".icon").data]

/-- The bad_patterns denylist of is_valid_image_url. -/
def badPatterns : List Str :=
  [("icon").data, ("placeholder").data, ("blank").data, ("transparent").data,
   ("logo").data, ("button").data, ("favicon").data, ("pixel.").data, ("spacer").data,
   ("spinner").data, ("loading").data, ("1x1").data, ("avatar").data, ("profile-pic").data]

/-- The reliable_domains allowlist (the source lists upload.wikimedia.org
twice; kept verbatim). -/
def reliableDomains : List Str :=
  [("cdn.pixabay.com").data, ("images.unsplash.com").data, ("img.freepik.com").data,
   ("upload.wikimedia.org").data, ("i.pinimg.com").data, ("cdn.statically.io").data,
   ("upload.wikimedia.org").data]

/-- The extension allowlist used with reliable domains. -/
def goodExts : List Str := [(".jpg").data, (".jpeg").data, (".png").data]

/-- The body of is_valid_image_url past the cache lookup, returning the
verdict and the number of HTTP requests performed (0, 1 for HEAD only, or 2
for HEAD plus ranged GET). Any network exception yields False (the
surrounding try/except), except during the ranged GET where the source
explicitly passes and accepts. -/
def validateUncached (env : UrlNetEnv) (url : Str) : Bool × Nat :=
  let lower_url := pyLower url
  if url.isEmpty || !(("http://").data.isPrefixOf url || ("https://").data.isPrefixOf url) then
    (false, 0)
  else if badExts.any (fun e => subStr e lower_url) then (false, 0)
  else if badPatterns.any (fun p => subStr p lower_url) then (false, 0)
  else if reliableDomains.any (fun d => subStr d lower_url) &&
          goodExts.any (fun e => subStr e lower_url) then (true, 0)
  else
    match env.head url with
    | none => (false, 1)
    | some resp =>
      if resp.status ≠ 200 then (false, 1)
      else if !(("image/").data.isPrefixOf resp.content_type) then (false, 1)
      else
        match resp.content_length with
        | some cl =>
          if !cl.isEmpty && cl.all Char.isDigit then
            if pyNat cl < 8192 then (false, 1) else (true, 1)
          else
            match env.rangeChunk url with
            | none => (true, 2)
            | some len => if len < 8192 then (false, 2) else (true, 2)
        | none =>
          match env.rangeChunk url with
          | none => (true, 2)
          | some len => if len < 8192 then (false, 2) else (true, 2)

/-- image_search.is_valid_image_url with its process-wide cache made explicit:
returns the verdict, the updated cache and the number of HTTP requests
performed by this call. Every uncached path stores its verdict before
returning. -/
def is_valid_image_url (env : UrlNetEnv) (cache : UrlCache) (url : Str) :
    Bool × UrlCache × Nat :=
  match cache.lookup url with
  | some b => (b, cache, 0)
  | none =>
    let r := validateUncached env url
    (r.1, (url, r.1) :: cache, r.2)

/-- The network world of the image discovery service: the URL lists extracted
by the backend query functions (the regex extraction over external markup,
yielding [] on any request failure or empty extraction) plus the validation
network. -/
structure ImgSearchEnv where
  net : UrlNetEnv
  bingUrls : Str → List Str
  yahooUrls : Str → List Str

/-- get_images_from_bing: take up to 5 extracted URLs and tag them. -/
def get_images_from_bing (env : ImgSearchEnv) (query : Str) : List ImageRec :=
  ((env.bingUrls query).take 5).enum.map
    (fun p => ⟨p.2, query ++ (" image ").data ++ natToStr (p.1 + 1), ("Bing").data⟩)

/-- get_images_from_yahoo: take up to 5 extracted URLs and tag them. -/
def get_images_from_yahoo (env : ImgSearchEnv) (query : Str) : List ImageRec :=
  ((env.yahooUrls query).take 5).enum.map
    (fun p => ⟨p.2, query ++ (" image ").data ++ natToStr (p.1 + 1), ("Yahoo").data⟩)

/-- The validation filter loop of get_images (cache threads left to right). -/
def filterValidImages (env : UrlNetEnv) : List ImageRec → UrlCache → List ImageRec × UrlCache
  | [], cache => ([], cache)
  | img :: rest, cache =>
    let r := is_valid_image_url env cache img.url
    let rec0 := filterValidImages env rest r.2.1
    (if r.1 then img :: rec0.1 else rec0.1, rec0.2)

/-- The append loop over one alternative query's results: append each valid
image, breaking once 5 images are accumulated. -/
def appendValid (env : UrlNetEnv) : List ImageRec → List ImageRec → UrlCache →
    List ImageRec × UrlCache
  | acc, [], cache => (acc, cache)
  | acc, img :: rest, cache =>
    let r := is_valid_image_url env cache img.url
    if r.1 then
      if (acc ++ [img]).length ≥ 5 then (acc ++ [img], r.2.1)
      else appendValid env (acc ++ [img]) rest r.2.1
    else appendValid env acc rest r.2.1

/-- The alternative-query loop of get_images: stop once 3 images are
accumulated, else query Bing with the next reformulation. -/
def altLoop (env : ImgSearchEnv) : List ImageRec → List Str → UrlCache →
    List ImageRec × UrlCache
  | acc, [], cache => (acc, cache)
  | acc, q :: qs, cache =>
    if acc.length ≥ 3 then (acc, cache)
    else
      let r := appendValid env.net acc (get_images_from_bing env q) cache
      altLoop env r.1 qs r.2

/-- The alternative queries tried when fewer than 2 valid images were found. -/
def altQueries (query : Str) : List Str :=
  [joinWords ((pySplitWs query).take 3),
   query ++ (" high quality image").data,
   query ++ (" featured image").data,
   joinWords ((pySplitWs query).take 2) ++ (" guide image").data]

/-- image_search.get_images: Bing first (returned alone when it yields at
least 3 valid images), then Yahoo, then the alternative-query tier when the
combined valid count is below 2. -/
def get_images (env : ImgSearchEnv) (cache : UrlCache) (query : Str) :
    List ImageRec × UrlCache :=
  let rbing := filterValidImages env.net (get_images_from_bing env query) cache
  if rbing.1.length ≥ 3 then rbing
  else
    let ryahoo := filterValidImages env.net (get_images_from_yahoo env query) rbing.2
    let all := rbing.1 ++ ryahoo.1
    if all.length < 2 then altLoop env all (altQueries query) ryahoo.2
    else (all, ryahoo.2)

/-! ## Regex scan and str.replace primitives (for article_generator.py)

The placeholder regex r'\[IMAGE: (.*?)\]' is executed by a scanner over the
character list: at each position, a match requires the literal prefix
"[IMAGE: " and then the lazy group runs to the first ']' with '.' excluding
newlines; scanning resumes after a match (re.findall) or one character later
after a failed start. str.replace is the standard leftmost non-overlapping
replacement that never rescans replaced text. Both recursions are driven by
an explicit fuel (initialised to the string length, which lemmas below show
is always sufficient) so that the kernel can evaluate them. -/

/-- The literal pattern prefix "[IMAGE: " of the placeholder regex. -/
def imgPat : Str := ("[IMAGE: ").data

/-- The heads of the proper tails of imgPat (the characters that must follow
a partial pattern match): exactly the characters of "IMAGE: ". -/
def contHeads : Str := ("IMAGE: ").data

/-- The lazy group (.*?) followed by ']': take characters up to the first
']', failing on a newline or the end of input. -/
def takeDesc : Str → Option (Str × Str)
  | [] => none
  | c :: s =>
    if c = ']' then some ([], s)
    else if c = '\n' then none
    else
      match takeDesc s with
      | some (d, r) => some (c :: d, r)
      | none => none

/-- Fueled scanner for re.findall(r'\[IMAGE: (.*?)\]', ...). -/
def scanF : Nat → Str → List Str
  | 0, _ => []
  | _ + 1, [] => []
  | fuel + 1, c :: s =>
    if imgPat.isPrefixOf (c :: s) then
      match takeDesc ((c :: s).drop 8) with
      | some (d, r) => d :: scanF fuel r
      | none => scanF fuel s
    else scanF fuel s

/-- re.findall(r'\[IMAGE: (.*?)\]', s): the list of captured descriptions. -/
def scanMarkers (s : Str) : List Str := scanF s.length s

/-- Fueled worker for str.replace. -/
def replaceF (p r : Str) : Nat → Str → Str
  | 0, s => s
  | _ + 1, [] => []
  | fuel + 1, c :: s =>
    if p.isPrefixOf (c :: s) ∧ p ≠ [] then
      r ++ replaceF p r fuel ((c :: s).drop p.length)
    else c :: replaceF p r fuel s

/-- s.replace(p, r) for a non-empty pattern p: leftmost non-overlapping
occurrences, never rescanning the replacement text. -/
def pyReplace (s p r : Str) : Str := replaceF p r s.length s

/-- No occurrence of q starts inside the u part of u ++ v. -/
def NoStart (q u v : Str) : Prop := ∀ j, j < u.length → ¬ q <+: (u ++ v).drop j

/-- The exact marker text "[IMAGE: " ++ d ++ "]" that a found description d
was captured from (and that str.replace is called with). -/
def markerStr (d : Str) : Str := ("[IMAGE: ").data ++ d ++ [']']

/-- A chunk of an article during placeholder substitution: an intact marker
or an inserted replacement string. -/
inductive Piece where
  | und (d : Str)
  | rep (r : Str)
deriving Repr, DecidableEq

/-- The text of a piece. -/
def Piece.flat : Piece → Str
  | .und d => markerStr d
  | .rep r => r

/-- An article decomposed into a leading segment and piece/segment pairs. -/
def flattenPieces (s0 : Str) : List (Piece × Str) → Str
  | [] => s0
  | (p, s) :: ps => s0 ++ (p.flat ++ flattenPieces s ps)

/-- An article decomposed into segments and intact markers only. -/
def flattenMarkers (s0 : Str) : List (Str × Str) → Str
  | [] => s0
  | (d, s) :: ds => s0 ++ (markerStr d ++ flattenMarkers s ds)

/-- A plain description: no brackets and no newline (the form the body
generator is instructed to emit). -/
def goodDesc (d : Str) : Prop := '[' ∉ d ∧ ']' ∉ d ∧ '\n' ∉ d

instance (d : Str) : Decidable (goodDesc d) := by unfold goodDesc; infer_instance

/-- A plain segment: no occurrence of the pattern prefix. -/
def segOK (s : Str) : Prop := ¬ imgPat <:+: s

instance (s : Str) : Decidable (segOK s) := by unfold segOK; infer_instance

/-- A safe replacement string: nonempty, free of the pattern prefix, whose
first character cannot continue a partial pattern match and whose last
character does not occur in the pattern. -/
def repOK (r : Str) : Prop :=
  ¬ imgPat <:+: r ∧ r ≠ [] ∧
  (∀ ch, r.head? = some ch → ch ∉ contHeads) ∧
  (∀ ch, r.getLast? = some ch → ch ∉ imgPat)

/-- Well-formedness of one piece. -/
def pieceOK : Piece → Prop
  | .und d => goodDesc d
  | .rep r => repOK r

/-- Well-formedness of a decomposed article. -/
def chunksOK (s0 : Str) (ps : List (Piece × Str)) : Prop :=
  segOK s0 ∧ ∀ q ∈ ps, pieceOK q.1 ∧ segOK q.2

/-- The effect of one str.replace call on a piece: every intact marker whose
description is the replaced one becomes a replacement chunk. -/
def replacePiece (di ri : Str) : Piece → Piece
  | .und d => if d = di then .rep ri else .und d
  | .rep r => .rep r

/-- Resolve every remaining marker using the assignment f. -/
def finishPiece (f : Str → Str) : Piece → Piece
  | .und d => .rep (f d)
  | .rep r => .rep r

/-! ## article_generator.py -/

/-- The markdown image tag built for a resolved placeholder,
"![{img_title}]({url})" with img_title = description. -/
def imgTag (title url : Str) : Str :=
  ("![").data ++ title ++ ("](").data ++ url ++ (")").data

/-- The inline comment inserted when an exception occurs while resolving one
marker. -/
def errorComment (d msg : Str) : Str :=
  ("<!-- Error finding image: ").data ++ d ++ (" - ").data ++ msg ++ (" -->").data

/-- The fixed rotating set of reliable stock image URLs. -/
def reliable_stock_images : List Str :=
  [("https://cdn.pixabay.com/photo/2015/09/03/08/10/blog-920730_1280.jpg").data,
   ("https://cdn.pixabay.com/photo/2015/01/08/18/24/programming-593312_1280.jpg").data,
   ("https://cdn.pixabay.com/photo/2014/05/02/21/49/blogger-336371_1280.jpg").data,
   ("https://cdn.pixabay.com/photo/2015/07/17/22/43/student-849825_1280.jpg").data,
   ("https://cdn.pixabay.com/photo/2015/01/20/13/13/ipad-605439_1280.jpg").data]

/-- The initial image search plus the up-to-3 retry queries of
replace_image_placeholders (description alone, subject alone,
subject + " image"), stopping at the first nonempty result. -/
def imagesWithRetries (env : ImgSearchEnv) (cache : UrlCache) (subject desc : Str) :
    List ImageRec × UrlCache :=
  let r0 := get_images env cache (subject ++ [' '] ++ desc)
  if r0.1 ≠ [] then r0 else
  let r1 := get_images env r0.2 desc
  if r1.1 ≠ [] then r1 else
  let r2 := get_images env r1.2 subject
  if r2.1 ≠ [] then r2 else
  get_images env r2.2 (subject ++ (" image").data)

/-- The loop over images[1:] looking for the first valid alternative URL. -/
def firstValidUrl (env : UrlNetEnv) : List ImageRec → UrlCache → Option Str × UrlCache
  | [], cache => (none, cache)
  | img :: rest, cache =>
    let r := is_valid_image_url env cache img.url
    if r.1 then (some img.url, r.2.1) else firstValidUrl env rest r.2.1

/-- The more reliable backup queries tried before falling back to stock. -/
def backupQueries (subject desc : Str) : List Str :=
  [subject ++ [' '] ++ desc ++ (" tutorial image").data,
   subject ++ [' '] ++ desc ++ (" high quality").data,
   ("professional blogging image").data,
   ("content marketing illustration").data]

/-- The backup-query loop: first valid image over the results of each backup
query in order. -/
def backupSearch (env : ImgSearchEnv) : List Str → UrlCache → Option Str × UrlCache
  | [], cache => (none, cache)
  | q :: qs, cache =>
    let ri := get_images env cache q
    let rv := firstValidUrl env.net ri.1 ri.2
    match rv.1 with
    | some u => (some u, rv.2)
    | none => backupSearch env qs rv.2

/-- The try-block body of replace_image_placeholders for one marker (index i,
description desc): search with retries; use the first image if valid, else
the first valid alternative, else the backup queries, else the stock image
selected by i mod 5; when no images at all were found, use the stock image
directly. Every branch produces a markdown image tag with the description as
alt text. -/
def resolveMarker (env : ImgSearchEnv) (cache : UrlCache) (subject desc : Str) (i : Nat) :
    Str × UrlCache :=
  match imagesWithRetries env cache subject desc with
  | ([], cache1) => (imgTag desc (reliable_stock_images.getD (i % 5) []), cache1)
  | (img :: rest, cache1) =>
    match is_valid_image_url env.net cache1 img.url with
    | (true, cache2, _) => (imgTag desc img.url, cache2)
    | (false, cache2, _) =>
      match firstValidUrl env.net rest cache2 with
      | (some u, cache3) => (imgTag desc u, cache3)
      | (none, cache3) =>
        match backupSearch env (backupQueries subject desc) cache3 with
        | (some u, cache4) => (imgTag desc u, cache4)
        | (none, cache4) => (imgTag desc (reliable_stock_images.getD (i % 5) []), cache4)

/-- The per-marker loop of replace_image_placeholders: for marker i with
description d, either the exception oracle fires (modelling an unexpected
exception inside the try block, replaced by an inline comment) or the try
body resolves an image tag; each replacement is applied with str.replace on
the full marker text. Returns the modified article, the final validation
cache and the list of replacement strings used (in marker order). -/
def replaceLoop (env : ImgSearchEnv) (exc : Nat → Str → Option Str) (subject : Str) :
    Str → UrlCache → Nat → List Str → Str × UrlCache × List Str
  | acc, cache, _, [] => (acc, cache, [])
  | acc, cache, i, d :: ds =>
    match exc i d with
    | some msg =>
      let rp := errorComment d msg
      let rest := replaceLoop env exc subject (pyReplace acc (markerStr d) rp) cache (i + 1) ds
      (rest.1, rest.2.1, rp :: rest.2.2)
    | none =>
      let rm := resolveMarker env cache subject d i
      let rest := replaceLoop env exc subject (pyReplace acc (markerStr d) rm.1) rm.2 (i + 1) ds
      (rest.1, rest.2.1, rm.1 :: rest.2.2)

/-- article_generator.replace_image_placeholders: find all placeholder
descriptions; when none, return the article untouched; else replace each in
order. -/
def replace_image_placeholders (env : ImgSearchEnv) (exc : Nat → Str → Option Str)
    (cache : UrlCache) (article subject : Str) : Str × UrlCache :=
  if (scanMarkers article).isEmpty then (article, cache)
  else
    ((replaceLoop env exc subject article cache 0 (scanMarkers article)).1,
     (replaceLoop env exc subject article cache 0 (scanMarkers article)).2.1)

/-- Image world where both backends and the validation network return
nothing, used for concrete runs. -/
def envNone : ImgSearchEnv :=
  { net := { head := fun _ => none, rangeChunk := fun _ => none }
    bingUrls := fun _ => [], yahooUrls := fun _ => [] }

/-- Image world whose Bing backend returns a single reliable-domain URL. -/
def envPixabay : ImgSearchEnv :=
  { net := { head := fun _ => none, rangeChunk := fun _ => none }
    bingUrls := fun _ => [("https://cdn.pixabay.com/photo/x.jpg").data]
    yahooUrls := fun _ => [] }

/-- Exception oracle that never fires. -/
def excNone : Nat → Str → Option Str := fun _ _ => none

/-- Leading-whitespace removal, worker for str.strip(). -/
def dropLeadingWs : Str → Str
  | [] => []
  | c :: s => if c.isWhitespace then dropLeadingWs s else c :: s

/-- str.strip(): remove leading and trailing whitespace. -/
def pyStrip (s : Str) : Str := ((dropLeadingWs ((dropLeadingWs s).reverse)).reverse)

/-- s.split('\n')[0]: the text before the first newline. -/
def headLine : Str → Str
  | [] => []
  | c :: s => if c = '\n' then [] else c :: headLine s

/-- Fueled worker for str.split(sep) with a non-empty separator. -/
def splitSubF (sep : Str) : Nat → Str → List Str
  | 0, s => [s]
  | _ + 1, [] => [[]]
  | fuel + 1, c :: s =>
    if sep.isPrefixOf (c :: s) ∧ sep ≠ [] then
      [] :: splitSubF sep fuel ((c :: s).drop sep.length)
    else
      match splitSubF sep fuel s with
      | [] => [[c]]
      | t :: ts => (c :: t) :: ts

/-- s.split(sep): split on every occurrence, keeping empty parts. -/
def pySplitOnSub (s sep : Str) : List Str := splitSubF sep s.length s

/-- sep.join(parts). -/
def pyJoin (sep : Str) : List Str → Str
  | [] => []
  | [x] => x
  | x :: xs => x ++ sep ++ pyJoin sep xs

/-- article_generator.generate_title. The gen argument models the whole
client interaction (get_gemini_client plus generate_content): .error is any
raised exception (caught, falling back), .ok none is the client Failure
after exhausted retries; the Python falsy test also treats an empty response
as missing. On success the response is stripped, double quotes removed and
only the first line kept. -/
def generate_title (gen : Except Str (Option Str)) (subject : Str) : Str :=
  match gen with
  | .error _ => ("Article About ").data ++ subject
  | .ok none => ("Article About ").data ++ subject
  | .ok (some response) =>
    if response = [] then ("Article About ").data ++ subject
    else headLine (pyReplace (pyStrip response) ['"'] [])

/-- article_generator.generate_article reduced to its control flow: the huge
prompt only feeds the oracle, which models the client call; a missing or
empty response raises "Failed to generate article content" and every
exception is re-raised (propagates to the caller). -/
def generate_article (gen : Except Str (Option Str)) : Except Str Str :=
  match gen with
  | .error e => .error e
  | .ok none => .error ("Failed to generate article content").data
  | .ok (some t) =>
    if t = [] then .error ("Failed to generate article content").data else .ok t

/-- language_utils.detect_language: the oracle is the successful detection
result; none covers both a missing langdetect library and any exception,
defaulting to "English" — this function never raises. -/
def detect_language (detected : Option Str) : Str := detected.getD (("English").data)

/-- The "<!--more-->" insertion of generate_seo_article: append the tag to
the first paragraph and rejoin (the split list is never empty, so the
source's `if paragraphs` guard always passes). -/
def insertMoreTag (article : Str) : Str :=
  match pySplitOnSub article (("\n\n").data) with
  | [] => article
  | p :: ps => pyJoin (("\n\n").data) ((p ++ ("\n\n<!--more-->\n\n").data) :: ps)

/-- Scan (newline-bounded) to the first occurrence of the two-character
delimiter a b, returning the remainder after it. -/
def findSeq2 (a b : Char) : Str → Option Str
  | [] => none
  | c :: s =>
    if c = '\n' then none
    else if c = a then
      match s with
      | [] => none
      | c2 :: s2 => if c2 = b then some s2 else findSeq2 a b s
    else findSeq2 a b s

/-- Capture until the given character, failing at a newline or at the end of
input (the dot of a lazy group never matches a newline). -/
def takeUntilChar (t : Char) : Str → Option (Str × Str)
  | [] => none
  | c :: s =>
    if c = t then some ([], s)
    else if c = '\n' then none
    else
      match takeUntilChar t s with
      | some (u, r) => some (c :: u, r)
      | none => none

/-- Backtracking loop over candidate alt-closing delimiters for the markdown
image pattern: the lazy alt part extends to the next close-bracket-open-paren
pair while the URL capture fails to reach a close paren on the same line. -/
def mdCaptureLoop : Nat → Str → Option Str
  | 0, _ => none
  | fuel + 1, s =>
    match findSeq2 ']' '(' s with
    | none => none
    | some rest =>
      match takeUntilChar ')' rest with
      | some (url, _) => some url
      | none => mdCaptureLoop fuel rest

/-- First match of the markdown image pattern (bang, lazily bracketed alt
text, lazily parenthesised URL, all on one line), as matched by re.findall
in extract_featured_image. -/
def extractMdImage : Str → Option Str
  | [] => none
  | c :: s =>
    if (("![").data).isPrefixOf (c :: s) then
      match mdCaptureLoop s.length ((c :: s).drop 2) with
      | some url => some url
      | none => extractMdImage s
    else extractMdImage s

/-- Capture until the first quote character, single or double, also
returning the quote found; fails at a newline or at the end. -/
def takeUntilQuote : Str → Option (Str × Char × Str)
  | [] => none
  | c :: s =>
    if c = '"' ∨ c = Char.ofNat 39 then some ([], c, s)
    else if c = '\n' then none
    else
      match takeUntilQuote s with
      | some (u, q, r) => some (c :: u, q, r)
      | none => none

/-- Is there a close angle bracket later on the current line (the trailing
lazy tail of the HTML image pattern)? -/
def existsGtLine : Str → Bool
  | [] => false
  | c :: s => if c = '\n' then false else if c = '>' then true else existsGtLine s

/-- Scan, newline-bounded, for the literal attribute marker src followed by
an equals sign, returning the remainder after it. -/
def findSrcEq : Str → Option Str
  | [] => none
  | c :: s =>
    if c = '\n' then none
    else if (("src=").data).isPrefixOf (c :: s) then some ((c :: s).drop 4)
    else findSrcEq s

/-- Backtracking loop over candidate closing quotes for the lazy URL capture
of the HTML image pattern: when the mandatory close angle bracket is missing
after a candidate quote, the capture group extends past that quote to the
next one on the line. -/
def quoteLoop : Nat → Str → Str → Option Str
  | 0, _, _ => none
  | fuel + 1, s, acc =>
    match takeUntilQuote s with
    | none => none
    | some (seg, q, rest3) =>
      if existsGtLine rest3 then some (acc ++ seg)
      else quoteLoop fuel rest3 (acc ++ seg ++ [q])

/-- Backtracking loop over candidate src attributes after an img-tag open. -/
def htmlCaptureLoop : Nat → Str → Option Str
  | 0, _ => none
  | fuel + 1, s =>
    match findSrcEq s with
    | none => none
    | some rest =>
      match rest with
      | [] => none
      | q :: rest2 =>
        if q = '"' ∨ q = Char.ofNat 39 then
          match quoteLoop rest2.length rest2 [] with
          | some url => some url
          | none => htmlCaptureLoop fuel rest2
        else htmlCaptureLoop fuel rest

/-- First match of the HTML image pattern (img-tag open, lazy gap, quoted
src attribute with a lazily captured URL, close angle bracket on the same
line), as matched by re.findall in extract_featured_image. -/
def extractHtmlImage : Str → Option Str
  | [] => none
  | c :: s =>
    if (("<img").data).isPrefixOf (c :: s) then
      match htmlCaptureLoop s.length ((c :: s).drop 4) with
      | some url => some url
      | none => extractHtmlImage s
    else extractHtmlImage s

/-- seo_utils.extract_featured_image: the first markdown image URL, else the
first HTML img src, else nothing. -/
def extract_featured_image (article_content : Str) : Option Str :=
  match extractMdImage article_content with
  | some url => some url
  | none => extractHtmlImage article_content

/-- The YAML special-character test of generate_frontmatter: a colon, either
kind of quote, a square bracket or a curly brace in the title forces the
literal block scalar form. -/
def yamlNeedsBlock (title : Str) : Bool :=
  title.contains ':' || title.contains (Char.ofNat 39) || title.contains '"' ||
  title.contains '[' || title.contains ']' ||
  title.contains (Char.ofNat 123) || title.contains (Char.ofNat 125)

/-- Remove both kinds of quote, the sanitising step of generate_frontmatter
(single quote first, then double quote, as in the source). -/
def stripBothQuotes (s : Str) : Str := pyReplace (pyReplace s [Char.ofNat 39] []) ['"'] []

/-- The tag-listing loop of generate_frontmatter: each tag has quotes
removed and is stripped; empty results are skipped. -/
def fmTagLines : List Str → Str
  | [] => []
  | t :: ts =>
    (if pyStrip (stripBothQuotes t) = [] then []
     else ("  - ").data ++ pyStrip (stripBothQuotes t) ++ ['\n']) ++ fmTagLines ts

/-- article_generator.generate_frontmatter. The timestamp comes from the
clock and is passed as the today parameter; the only step that can raise is
generate_tags_from_title (an IndexError for a whitespace-only subject), so
the result is an Except. A falsy (missing or empty) category falls back to
the first word of the subject, or the subject itself when it has no words;
the featured image is extracted only from a non-empty article content. -/
def generate_frontmatter (title subject permalink : Str) (category : Option Str)
    (article_content : Option Str) (today : Str) : Except Str Str :=
  match generate_tags_from_title title subject with
  | none => .error (("IndexError: list index out of range").data)
  | some tags =>
    .ok ((("---\n").data) ++
      (if yamlNeedsBlock title then ("title: |\n  ").data ++ title ++ ['\n']
       else ("title: \x27").data ++ title ++ ("\x27\n").data) ++
      ("date: ").data ++ today ++ ['\n'] ++
      ("author: Cart labs\n").data ++
      ("layout: post\n").data ++
      (match
        (match article_content with
         | some content => if content = [] then none else extract_featured_image content
         | none => none)
       with
       | some f => ("image: \x27").data ++ stripBothQuotes f ++ ("\x27\n").data
       | none => []) ++
      ("tag:\n").data ++ fmTagLines tags ++
      ("permalink: \x27").data ++ pyStrip (stripBothQuotes permalink) ++ ("\x27\n").data ++
      ("categories:\n").data ++
      ("  - ").data ++
      pyStrip (stripBothQuotes
        (match category with
         | some c =>
           if c = [] then
             match pySplitWs subject with
             | [] => subject
             | w :: _ => w
           else c
         | none =>
           match pySplitWs subject with
           | [] => subject
           | w :: _ => w)) ++ ['\n'] ++
      ("---\n\n").data)

/-- The external world of generate_seo_article: the language detection
result, the two client interactions (title and body), the slugify library
function, the image-search world, the per-marker exception oracle, the two
clock reads (frontmatter date and store timestamp) and the outcome of
writing article_links.json (some message means the file write raised). -/
structure ArticleEnv where
  detected : Option Str
  titleGen : Except Str (Option Str)
  articleGen : Except Str (Option Str)
  slugify : Str → Str
  img : ImgSearchEnv
  exc : Nat → Str → Option Str
  now : Str
  addTimestamp : Str
  persistExc : Option Str

/-- Result of generate_seo_article: the success dict of the source (title,
article with images, markdown, permalink, subject, category parameter) or
the error dict carrying the stringified exception. -/
inductive GenArticleResult where
  | ok (title article markdown permalink subject : Str) (category : Option Str)
  | error (msg : Str)
deriving Repr, DecidableEq

/-- article_generator.generate_seo_article, returning the result together
with the final store list and validation-cache state. The whole body sits in
one try/except, so any raised message becomes the error result. The language
detected from the subject and the related articles looked up from the store
only feed the prompts, which the oracles answer; generate_title and
detect_language have their own handlers and never raise, so the failure
points in source order are: the body generation, the frontmatter (tag
IndexError) and the store write after a successful add. -/
def generate_seo_article (env : ArticleEnv) (mgr : List LinkArticle) (cache : UrlCache)
    (subject : Str) (category : Option Str) :
    GenArticleResult × List LinkArticle × UrlCache :=
  match generate_article env.articleGen with
  | .error e => (.error e, mgr, cache)
  | .ok article =>
    match replace_image_placeholders env.img env.exc cache article subject with
    | (replaced, cache2) =>
      match
        generate_frontmatter (generate_title env.titleGen subject) subject
          ('/' :: env.slugify (generate_title env.titleGen subject)) category
          (some (insertMoreTag replaced)) env.now
      with
      | .error e => (.error e, mgr, cache2)
      | .ok frontmatter =>
        match
          add_article mgr (generate_title env.titleGen subject) subject
            ('/' :: env.slugify (generate_title env.titleGen subject)) env.addTimestamp
        with
        | (added, mgr2) =>
          match (if added then env.persistExc else none) with
          | some e => (.error e, mgr2, cache2)
          | none =>
            (.ok (generate_title env.titleGen subject) (insertMoreTag replaced)
              (frontmatter ++ insertMoreTag replaced)
              ('/' :: env.slugify (generate_title env.titleGen subject)) subject category,
             mgr2, cache2)

/-- Every request recorded by the retry loop carries the one model fixed at
entry (newly recorded requests all use the model parameter). -/
theorem genAttempts_model_const (oracle : Nat → ApiOutcome) (model : Str) :
    ∀ (fuel n : Nat) (c : GeminiClient) (reqs : List (Str × Str))
      (res : Option Str) (c' : GeminiClient) (reqs' : List (Str × Str)),
      genAttempts oracle model fuel n c reqs = .ok (res, c', reqs') →
      (∀ r ∈ reqs, r.2 = model) → ∀ r ∈ reqs', r.2 = model := by
  intro fuel
  induction fuel with
  | zero =>
    intro n c reqs res c' reqs' h hreqs
    have h' : (none : Option Str) = res ∧ c = c' ∧ reqs = reqs' := by
      simpa [genAttempts] using h
    obtain ⟨-, -, rfl⟩ := h'
    exact hreqs
  | succ fuel ih =>
    intro n c reqs res c' reqs' h hreqs
    simp only [genAttempts] at h
    cases hk : c.getCurrentKey with
    | none => rw [hk] at h; exact absurd h (by simp)
    | some key =>
      rw [hk] at h
      have hstep : ∀ r ∈ reqs ++ [(key, model)], r.2 = model := by
        intro r hr
        rcases List.mem_append.mp hr with h1 | h2
        · exact hreqs r h1
        · simp only [List.mem_singleton] at h2; rw [h2]
      cases horacle : oracle n with
      | success t =>
        rw [horacle] at h
        have h' : some t = res ∧ c = c' ∧ reqs ++ [(key, model)] = reqs' := by
          simpa using h
        obtain ⟨-, -, hr⟩ := h'
        rw [← hr]
        exact hstep
      | noCandidates => rw [horacle] at h; exact ih _ _ _ _ _ _ h hstep
      | rateLimited => rw [horacle] at h; exact ih _ _ _ _ _ _ h hstep
      | httpError => rw [horacle] at h; exact ih _ _ _ _ _ _ h hstep
      | exn => rw [horacle] at h; exact ih _ _ _ _ _ _ h hstep

/-- The retry loop only transforms the client state by iterating the coupled
rotation; k counts the failed attempts: on a success after k failures the
trace grew by k + 1 requests, and on exhaustion k equals the whole fuel. -/
theorem genAttempts_rotBoth (oracle : Nat → ApiOutcome) (model : Str) :
    ∀ (fuel n : Nat) (c : GeminiClient) (reqs : List (Str × Str))
      (res : Option Str) (c' : GeminiClient) (reqs' : List (Str × Str)),
      genAttempts oracle model fuel n c reqs = .ok (res, c', reqs') →
      ∃ k ≤ fuel, c' = rotBoth k c ∧
        (res = none → k = fuel) ∧
        (∀ t, res = some t → reqs'.length = reqs.length + k + 1) := by
  intro fuel
  induction fuel with
  | zero =>
    intro n c reqs res c' reqs' h
    have h' : (none : Option Str) = res ∧ c = c' ∧ reqs = reqs' := by
      simpa [genAttempts] using h
    obtain ⟨h1, h2, h3⟩ := h'
    exact ⟨0, Nat.le_refl 0, by simp [rotBoth, ← h2], fun _ => rfl,
      fun t ht => by rw [← h1] at ht; simp at ht⟩
  | succ fuel ih =>
    intro n c reqs res c' reqs' h
    simp only [genAttempts] at h
    cases hk : c.getCurrentKey with
    | none => rw [hk] at h; exact absurd h (by simp)
    | some key =>
      rw [hk] at h
      have step :
          genAttempts oracle model fuel (n + 1) (c.rotateKey.rotateModel)
              (reqs ++ [(key, model)]) = .ok (res, c', reqs') →
          ∃ k ≤ fuel + 1, c' = rotBoth k c ∧
            (res = none → k = fuel + 1) ∧
            (∀ t, res = some t → reqs'.length = reqs.length + k + 1) := by
        intro hrec
        obtain ⟨k, hk1, hk2, hk3, hk4⟩ := ih _ _ _ _ _ _ hrec
        refine ⟨k + 1, Nat.succ_le_succ hk1, ?_, fun hres => by rw [hk3 hres], ?_⟩
        · rw [hk2]; rfl
        · intro t ht
          have := hk4 t ht
          simp only [List.length_append, List.length_singleton] at this
          omega
      cases horacle : oracle n with
      | success t =>
        rw [horacle] at h
        have h' : some t = res ∧ c = c' ∧ reqs ++ [(key, model)] = reqs' := by
          simpa using h
        obtain ⟨h1, h2, h3⟩ := h'
        refine ⟨0, Nat.zero_le _, by simp [rotBoth, ← h2], ?_, ?_⟩
        · intro hres; rw [← h1] at hres; simp at hres
        · intro t' _; rw [← h3]; simp
      | noCandidates => rw [horacle] at h; exact step h
      | rateLimited => rw [horacle] at h; exact step h
      | httpError => rw [horacle] at h; exact step h
      | exn => rw [horacle] at h; exact step h

/-- C1 counterexample: with the model unspecified, one key and max_retries 3,
the first attempt fails (rotating the model cursor to position 1), yet the
second attempt still builds its request against "gemini-1.5-flash", the model
resolved at entry, not against "gemini-2.0-flash", the model then selected by
the rotation cursor. -/
theorem generate_content_stale_model_counterexample :
    generate_content (mkGeminiClient [("k").data]) oracleC1 none 3 =
      .ok (some ("ok").data,
        { api_keys := [("k").data], current_key_index := 0
          models := geminiModels, current_model_index := 1 },
        [(("k").data, ("gemini-1.5-flash").data), (("k").data, ("gemini-1.5-flash").data)]) ∧
    geminiModels[1]? = some ("gemini-2.0-flash").data ∧
    ("gemini-1.5-flash").data ≠ ("gemini-2.0-flash").data :=
  ⟨rfl, by decide, by decide⟩

/-- C1 amended: when the model parameter is unspecified, generate_content
resolves the model from the rotation cursor once at entry, and EVERY attempt
(including retries after failures that have already advanced the cursor)
builds its request against that same entry-time model. -/
theorem generate_content_model_fixed (c : GeminiClient) (oracle : Nat → ApiOutcome)
    (max_retries : Nat) (m : Str) (res : Option Str) (c' : GeminiClient)
    (reqs : List (Str × Str))
    (hm : c.getCurrentModel = some m)
    (h : generate_content c oracle none max_retries = .ok (res, c', reqs)) :
    ∀ r ∈ reqs, r.2 = m := by
  have hres : resolveModel c none = .ok m := by simp [resolveModel, hm]
  unfold generate_content at h
  rw [hres] at h
  exact genAttempts_model_const oracle m _ _ _ _ _ _ _ h (by simp)

/-- Witness for generate_content_model_fixed at a concrete run (the oracleC1
run: both recorded requests carry the entry-time model). -/
theorem generate_content_model_fixed_witness :
    ((("k").data, ("gemini-1.5-flash").data) : Str × Str).2 = ("gemini-1.5-flash").data :=
  generate_content_model_fixed (mkGeminiClient [("k").data]) oracleC1 3
    (("gemini-1.5-flash").data) (some ("ok").data)
    { api_keys := [("k").data], current_key_index := 0
      models := geminiModels, current_model_index := 1 }
    [(("k").data, ("gemini-1.5-flash").data), (("k").data, ("gemini-1.5-flash").data)]
    (by decide) rfl _ (by decide)

/-- Helper shared by C6 and C10: every returning run of generate_content
leaves the client at an iterate of the coupled rotation. -/
theorem generate_content_rotBoth (c : GeminiClient) (oracle : Nat → ApiOutcome)
    (modelArg : Option Str) (max_retries : Nat) (res : Option Str) (c' : GeminiClient)
    (reqs : List (Str × Str))
    (h : generate_content c oracle modelArg max_retries = .ok (res, c', reqs)) :
    ∃ k ≤ max_retries, c' = rotBoth k c ∧
      (res = none → k = max_retries) ∧
      (∀ t, res = some t → reqs.length = k + 1) := by
  unfold generate_content at h
  cases hr : resolveModel c modelArg with
  | error e => rw [hr] at h; exact absurd h (by simp)
  | ok model =>
    rw [hr] at h
    obtain ⟨k, h1, h2, h3, h4⟩ := genAttempts_rotBoth oracle model _ _ _ _ _ _ _ h
    exact ⟨k, h1, h2, h3, fun t ht => by have := h4 t ht; simpa using this⟩

/-- C6: on every run of generate_content that returns (rather than raising on
a bad credential state), the final cursors are an iterate of the COUPLED
rotation: some k failures advanced the credential cursor and the model cursor
exactly k times each, together — never one without the other; k is bounded by
max_retries, equals max_retries when the result is a Failure (none), and on a
success the trace holds exactly k + 1 attempts. -/
theorem generate_content_coupled_rotation (c : GeminiClient) (oracle : Nat → ApiOutcome)
    (modelArg : Option Str) (max_retries : Nat) (res : Option Str) (c' : GeminiClient)
    (reqs : List (Str × Str))
    (h : generate_content c oracle modelArg max_retries = .ok (res, c', reqs)) :
    ∃ k ≤ max_retries, c' = rotBoth k c ∧
      (res = none → k = max_retries) ∧
      (∀ t, res = some t → reqs.length = k + 1) :=
  generate_content_rotBoth c oracle modelArg max_retries res c' reqs h

/-- Witness for generate_content_coupled_rotation on the concrete oracleC1
run: one failure, so the final state is the coupled rotation applied once. -/
theorem generate_content_coupled_rotation_witness :
    ∃ k ≤ 3,
      ({ api_keys := [("k").data], current_key_index := 0
         models := geminiModels, current_model_index := 1 } : GeminiClient) =
          rotBoth k (mkGeminiClient [("k").data]) ∧
      ((some ("ok").data : Option Str) = none → k = 3) ∧
      (∀ t, (some ("ok").data : Option Str) = some t →
        ([(("k").data, ("gemini-1.5-flash").data),
          (("k").data, ("gemini-1.5-flash").data)] : List (Str × Str)).length = k + 1) :=
  generate_content_coupled_rotation (mkGeminiClient [("k").data]) oracleC1 none 3
    (some ("ok").data)
    { api_keys := [("k").data], current_key_index := 0
      models := geminiModels, current_model_index := 1 }
    [(("k").data, ("gemini-1.5-flash").data), (("k").data, ("gemini-1.5-flash").data)]
    rfl

theorem GeminiClient.WF.rotateKey {c : GeminiClient} (h : c.WF) : c.rotateKey.WF :=
  ⟨Nat.mod_lt _ (Nat.lt_of_le_of_lt (Nat.zero_le _) h.1), h.2⟩

theorem GeminiClient.WF.rotateModel {c : GeminiClient} (h : c.WF) : c.rotateModel.WF :=
  ⟨h.1, Nat.mod_lt _ (Nat.lt_of_le_of_lt (Nat.zero_le _) h.2)⟩

theorem GeminiClient.WF.rotBothIter {c : GeminiClient} (h : c.WF) :
    ∀ k, (rotBoth k c).WF := by
  intro k
  induction k generalizing c with
  | zero => exact h
  | succ k ih => exact ih (h.rotateKey.rotateModel)

/-- C10: every reachable client state keeps both cursors strictly below the
lengths of their pools, so _get_current_key and _get_current_model always
index in bounds (return some). -/
theorem client_reachable_WF {c : GeminiClient} (h : ClientReachable c) :
    c.WF ∧ c.getCurrentKey.isSome ∧ c.getCurrentModel.isSome := by
  have hwf : c.WF := by
    induction h with
    | init keys hk =>
      constructor
      · simpa [mkGeminiClient] using List.length_pos.mpr hk
      · simp [mkGeminiClient, geminiModels]
    | rotK _ ih => exact ih.rotateKey
    | rotM _ ih => exact ih.rotateModel
    | gen _ hgen ih =>
      obtain ⟨k, -, hc', -, -⟩ := generate_content_rotBoth _ _ _ _ _ _ _ hgen
      exact hc' ▸ ih.rotBothIter k
  refine ⟨hwf, ?_, ?_⟩
  · simp [GeminiClient.getCurrentKey, List.getElem?_eq_getElem hwf.1]
  · simp [GeminiClient.getCurrentModel, List.getElem?_eq_getElem hwf.2]

/-- Witness for client_reachable_WF at the freshly constructed single-key
client. -/
theorem client_reachable_WF_witness :
    (mkGeminiClient [("k").data]).WF ∧
    (mkGeminiClient [("k").data]).getCurrentKey.isSome ∧
    (mkGeminiClient [("k").data]).getCurrentModel.isSome :=
  client_reachable_WF (ClientReachable.init [("k").data] (by decide))

theorem mem_insertDesc {z x : ScoredArticle} {l : List ScoredArticle} :
    z ∈ insertDesc x l ↔ z = x ∨ z ∈ l := by
  induction l with
  | nil => simp [insertDesc]
  | cons y ys ih =>
    by_cases h : y.score ≤ x.score
    · simp [insertDesc, h]
    · simp only [insertDesc, if_neg h, List.mem_cons, ih]
      tauto

theorem insertDesc_sorted (x : ScoredArticle) (l : List ScoredArticle)
    (h : List.Pairwise (fun a b => b.score ≤ a.score) l) :
    List.Pairwise (fun a b => b.score ≤ a.score) (insertDesc x l) := by
  induction l with
  | nil => simp [insertDesc]
  | cons y ys ih =>
    rcases List.pairwise_cons.mp h with ⟨hy, hys⟩
    by_cases hc : y.score ≤ x.score
    · rw [insertDesc, if_pos hc]
      refine List.pairwise_cons.mpr ⟨?_, h⟩
      intro z hz
      rcases List.mem_cons.mp hz with rfl | hz'
      · exact hc
      · exact Nat.le_trans (hy z hz') hc
    · rw [insertDesc, if_neg hc]
      refine List.pairwise_cons.mpr ⟨?_, ih hys⟩
      intro z hz
      rcases mem_insertDesc.mp hz with rfl | hz'
      · exact Nat.le_of_lt (Nat.lt_of_not_le hc)
      · exact hy z hz'

theorem mem_sortDesc {z : ScoredArticle} {l : List ScoredArticle} :
    z ∈ sortDesc l ↔ z ∈ l := by
  induction l with
  | nil => simp [sortDesc]
  | cons y ys ih => simp [sortDesc, mem_insertDesc, ih]

theorem sortDesc_sorted (l : List ScoredArticle) :
    List.Pairwise (fun a b => b.score ≤ a.score) (sortDesc l) := by
  induction l with
  | nil => simp [sortDesc]
  | cons y ys ih => exact insertDesc_sorted y (sortDesc ys) ih

theorem insertDesc_filter (x : ScoredArticle) (l : List ScoredArticle) (k : Nat) :
    (insertDesc x l).filter (fun r => r.score == k) =
      if x.score = k then x :: l.filter (fun r => r.score == k)
      else l.filter (fun r => r.score == k) := by
  induction l with
  | nil =>
    by_cases hx : x.score = k <;> simp [insertDesc, List.filter_singleton, beq_iff_eq, hx]
  | cons y ys ih =>
    by_cases hc : y.score ≤ x.score
    · rw [insertDesc, if_pos hc]
      by_cases hx : x.score = k <;> simp [List.filter_cons, hx]
    · rw [insertDesc, if_neg hc]
      by_cases hx : x.score = k
      · rw [if_pos hx]
        have hy : ¬ y.score = k := by
          intro hy; exact hc (by rw [hy, hx])
        simp only [List.filter_cons, ih, if_pos hx]
        simp [hy]
      · rw [if_neg hx]
        simp only [List.filter_cons, ih, if_neg hx]

theorem sortDesc_filter (l : List ScoredArticle) (k : Nat) :
    (sortDesc l).filter (fun r => r.score == k) = l.filter (fun r => r.score == k) := by
  induction l with
  | nil => simp [sortDesc]
  | cons y ys ih =>
    rw [sortDesc, insertDesc_filter]
    by_cases hy : y.score = k
    · rw [if_pos hy, ih, List.filter_cons, if_pos (by simpa using hy)]
    · rw [if_neg hy, ih, List.filter_cons, if_neg (by simpa using hy)]

/-- C3: get_related_articles never returns the excluded permalink, returns at
most max_links records, sorted by weakly decreasing overlap score; every
returned record stems from a stored article with positive word overlap
against the query subject; and within each score class the output is a
subsequence of the storage-ordered scored list (stable tie-break). -/
theorem get_related_articles_spec (articles : List LinkArticle)
    (subject current_permalink : Str) (max_links : Nat) :
    (∀ r ∈ get_related_articles articles subject current_permalink max_links,
        r.permalink ≠ current_permalink) ∧
    (get_related_articles articles subject current_permalink max_links).length ≤ max_links ∧
    List.Pairwise (fun a b => b.score ≤ a.score)
      (get_related_articles articles subject current_permalink max_links) ∧
    (∀ r ∈ get_related_articles articles subject current_permalink max_links,
        0 < r.score ∧ ∃ a ∈ articles, r.title = a.title ∧ r.permalink = a.permalink ∧
          r.score = wordOverlap subject a.subject) ∧
    (∀ k, List.Sublist
        ((get_related_articles articles subject current_permalink max_links).filter
          (fun r => r.score == k))
        ((relatedScored articles subject current_permalink).filter
          (fun r => r.score == k))) := by
  have hmem : ∀ r ∈ get_related_articles articles subject current_permalink max_links,
      r ∈ relatedScored articles subject current_permalink := by
    intro r hr
    exact mem_sortDesc.mp (List.take_subset _ _ hr)
  have hscored : ∀ r ∈ relatedScored articles subject current_permalink,
      r.permalink ≠ current_permalink ∧ 0 < r.score ∧
      ∃ a ∈ articles, r.title = a.title ∧ r.permalink = a.permalink ∧
        r.score = wordOverlap subject a.subject := by
    intro r hr
    rw [relatedScored, List.mem_filterMap] at hr
    obtain ⟨a, ha, hfa⟩ := hr
    by_cases hp : a.permalink == current_permalink
    · rw [if_pos hp] at hfa; exact absurd hfa (by simp)
    · rw [if_neg hp] at hfa
      by_cases hov : wordOverlap subject a.subject > 0
      · rw [if_pos hov] at hfa
        have hfa' : ScoredArticle.mk a.title a.permalink (wordOverlap subject a.subject) = r := by
          simpa using hfa
        rw [← hfa']
        refine ⟨fun hcontra => hp (by simpa using hcontra), hov, a, ha, rfl, rfl, rfl⟩
      · rw [if_neg hov] at hfa; exact absurd hfa (by simp)
  refine ⟨?_, ?_, ?_, ?_, ?_⟩
  · intro r hr; exact (hscored r (hmem r hr)).1
  · exact List.length_take_le _ _
  · exact (sortDesc_sorted _).sublist (List.take_sublist _ _)
  · intro r hr; exact (hscored r (hmem r hr)).2
  · intro k
    rw [← sortDesc_filter (relatedScored articles subject current_permalink) k]
    exact (List.take_sublist _ _).filter _

/-- C4 counterexample: on a store that already holds two records with
permalink "p" (possible because the store is loaded from an external JSON
file), adding the same permalink twice still leaves two stored records with
that permalink, not exactly one. -/
theorem add_article_dup_counterexample :
    (add_article (add_article dupStore ("t").data ("s").data ("p").data ("ts3").data).2
        ("t").data ("s").data ("p").data ("ts4").data).1 = false ∧
    ((add_article (add_article dupStore ("t").data ("s").data ("p").data ("ts3").data).2
        ("t").data ("s").data ("p").data ("ts4").data).2.filter
        (fun a => a.permalink == ("p").data)).length = 2 := by
  constructor <;> decide

/-- C4 amended: for every store state, adding the same permalink twice makes
the second call return false and leave the collection unchanged, and the
final number of records with that permalink is max(previous count, 1) — in
particular exactly one whenever the store held at most one such record
beforehand (always the case for stores maintained through add_article alone). -/
theorem add_article_twice (articles : List LinkArticle)
    (t1 s1 ts1 t2 s2 ts2 permalink : Str) :
    (add_article (add_article articles t1 s1 permalink ts1).2 t2 s2 permalink ts2).1 = false ∧
    (add_article (add_article articles t1 s1 permalink ts1).2 t2 s2 permalink ts2).2 =
      (add_article articles t1 s1 permalink ts1).2 ∧
    ((add_article (add_article articles t1 s1 permalink ts1).2 t2 s2 permalink ts2).2.filter
        (fun a => a.permalink == permalink)).length =
      max (articles.filter (fun a => a.permalink == permalink)).length 1 := by
  by_cases hany : articles.any (fun a => a.permalink == permalink)
  · have h1 : add_article articles t1 s1 permalink ts1 = (false, articles) := by
      rw [add_article, if_pos hany]
    rw [h1]
    have h2 : add_article articles t2 s2 permalink ts2 = (false, articles) := by
      rw [add_article, if_pos hany]
    rw [h2]
    refine ⟨rfl, rfl, ?_⟩
    obtain ⟨a, ha, hpa⟩ := List.any_eq_true.mp hany
    have hfilter : a ∈ articles.filter (fun a => a.permalink == permalink) :=
      List.mem_filter.mpr ⟨ha, hpa⟩
    have hlen : 1 ≤ (articles.filter (fun a => a.permalink == permalink)).length :=
      List.length_pos.mpr (List.ne_nil_of_mem hfilter)
    exact (Nat.max_eq_left hlen).symm
  · have h1 : add_article articles t1 s1 permalink ts1 =
        (true, articles ++ [⟨t1, s1, permalink, ts1⟩]) := by
      rw [add_article, if_neg hany]
    rw [h1]
    have hany2 : (articles ++ [(⟨t1, s1, permalink, ts1⟩ : LinkArticle)]).any
        (fun a => a.permalink == permalink) = true := by
      rw [List.any_append]
      simp
    have h2 : add_article (articles ++ [⟨t1, s1, permalink, ts1⟩]) t2 s2 permalink ts2 =
        (false, articles ++ [⟨t1, s1, permalink, ts1⟩]) := by
      rw [add_article, if_pos hany2]
    rw [h2]
    refine ⟨rfl, rfl, ?_⟩
    have hnil : articles.filter (fun a => a.permalink == permalink) = [] := by
      rw [List.filter_eq_nil_iff]
      intro a ha
      have := List.any_eq_false.mp (Bool.not_eq_true _ ▸ hany) a ha
      simpa using this
    rw [List.filter_append, hnil]
    simp

theorem finishTags_bounds (all_tags : List Str) (subject : Str)
    (h : pySplitWs subject ≠ []) :
    ∃ tags, finishTags all_tags subject = some tags ∧ 1 ≤ tags.length ∧ tags.length ≤ 5 := by
  by_cases he : all_tags.isEmpty
  · cases hs : pySplitWs subject with
    | nil => exact absurd hs h
    | cons w ws =>
      refine ⟨[w], ?_, by simp, by simp⟩
      rw [finishTags, if_pos he, hs]
      rfl
  · refine ⟨all_tags.take 5, by rw [finishTags, if_neg he], ?_, ?_⟩
    · have hne : all_tags ≠ [] := fun hc => he (by simp [hc])
      have : 0 < all_tags.length := List.length_pos.mpr hne
      rw [List.length_take]
      omega
    · rw [List.length_take]
      omega

/-- C8 counterexample: the subject " " is a non-empty string, yet with the
empty title no tag qualifies and the fallback indexes subject.split()[0] on
an empty list, raising an IndexError (modelled by none) instead of returning
1 to 5 tags. -/
theorem generate_tags_counterexample :
    ((" ").data : Str) ≠ [] ∧ generate_tags_from_title [] ((" ").data) = none := by
  constructor <;> decide

/-- C8 amended: for every title and every subject containing at least one
non-whitespace character (so that subject.split() is nonempty),
generate_tags_from_title returns between 1 and 5 tags. -/
theorem generate_tags_from_title_bounds (title subject : Str)
    (h : pySplitWs subject ≠ []) :
    ∃ tags, generate_tags_from_title title subject = some tags ∧
      1 ≤ tags.length ∧ tags.length ≤ 5 := by
  unfold generate_tags_from_title
  exact finishTags_bounds _ subject h

/-- Witness for generate_tags_from_title_bounds at a concrete title/subject. -/
theorem generate_tags_from_title_bounds_witness :
    pySplitWs (("coffee brewing").data) ≠ [] ∧
    (∃ tags, generate_tags_from_title (("Best Coffee Brewing Methods").data)
        (("coffee brewing").data) = some tags ∧ 1 ≤ tags.length ∧ tags.length ≤ 5) :=
  ⟨by decide, generate_tags_from_title_bounds (("Best Coffee Brewing Methods").data)
    (("coffee brewing").data) (by decide)⟩

/-- Store used for the C3 witness, mirroring the related-articles scenario of
the specification (subjects "python web scraping" and "web scraping tools"). -/
def scenarioCStore : List LinkArticle :=
  [⟨("A").data, ("python web scraping").data, ("/a").data, ("ts1").data⟩,
   ⟨("B").data, ("web scraping tools").data, ("/b").data, ("ts2").data⟩]

/-- Witness for get_related_articles_spec: on the scenario store the query
"python tutorials" returns exactly the first record (overlap 1 on "python",
zero overlap for the second record), and the theorem bounds its length. -/
theorem get_related_articles_spec_witness :
    get_related_articles scenarioCStore (("python tutorials").data) [] 3 =
      [⟨("A").data, ("/a").data, 1⟩] ∧
    (get_related_articles scenarioCStore (("python tutorials").data) [] 3).length ≤ 3 :=
  ⟨by decide, (get_related_articles_spec scenarioCStore (("python tutorials").data) [] 3).2.1⟩

/-- Witness for add_article_twice on an initially empty store: the duplicate
count comes out as max 0 1 = 1. -/
theorem add_article_twice_witness :
    (add_article (add_article [] ("t1").data ("s1").data ("/p").data ("ts1").data).2
        ("t2").data ("s2").data ("/p").data ("ts2").data).1 = false ∧
    (add_article (add_article [] ("t1").data ("s1").data ("/p").data ("ts1").data).2
        ("t2").data ("s2").data ("/p").data ("ts2").data).2 =
      (add_article [] ("t1").data ("s1").data ("/p").data ("ts1").data).2 ∧
    ((add_article (add_article [] ("t1").data ("s1").data ("/p").data ("ts1").data).2
        ("t2").data ("s2").data ("/p").data ("ts2").data).2.filter
        (fun a => a.permalink == ("/p").data)).length =
      max (([] : List LinkArticle).filter (fun a => a.permalink == ("/p").data)).length 1 :=
  add_article_twice [] ("t1").data ("s1").data ("ts1").data ("t2").data ("s2").data
    ("ts2").data ("/p").data

/-- After any call, the cache maps the URL to the returned verdict. -/
theorem is_valid_image_url_caches (env : UrlNetEnv) (cache : UrlCache) (url : Str) :
    (is_valid_image_url env cache url).2.1.lookup url =
      some (is_valid_image_url env cache url).1 := by
  cases hl : cache.lookup url with
  | some b => simp [is_valid_image_url, hl]
  | none => simp [is_valid_image_url, hl, List.lookup]

/-- C9: validating the same URL twice is deterministic and memoized — the
second call returns the verdict of the first, leaves the cache unchanged and
performs zero network requests (so over the process lifetime each distinct
URL is network-checked at most once). -/
theorem is_valid_image_url_memoized (env : UrlNetEnv) (cache : UrlCache) (url : Str) :
    (is_valid_image_url env (is_valid_image_url env cache url).2.1 url).1 =
      (is_valid_image_url env cache url).1 ∧
    (is_valid_image_url env (is_valid_image_url env cache url).2.1 url).2.1 =
      (is_valid_image_url env cache url).2.1 ∧
    (is_valid_image_url env (is_valid_image_url env cache url).2.1 url).2.2 = 0 := by
  have hc := is_valid_image_url_caches env cache url
  constructor
  · rw [is_valid_image_url, hc]
  · constructor
    · rw [is_valid_image_url, hc]
    · rw [is_valid_image_url, hc]

theorem takeDesc_some : ∀ (s d r : Str), takeDesc s = some (d, r) →
    s = d ++ ']' :: r ∧ ']' ∉ d ∧ '\n' ∉ d := by
  intro s
  induction s with
  | nil => intro d r h; exact absurd h (by simp [takeDesc])
  | cons c s ih =>
    intro d r h
    rw [takeDesc] at h
    by_cases hc : c = ']'
    · rw [if_pos hc] at h
      obtain ⟨rfl, rfl⟩ : ([] : Str) = d ∧ s = r := by simpa using h
      simp [hc]
    · rw [if_neg hc] at h
      by_cases hn : c = '\n'
      · rw [if_pos hn] at h; exact absurd h (by simp)
      · rw [if_neg hn] at h
        cases ht : takeDesc s with
        | none => rw [ht] at h; exact absurd h (by simp)
        | some dr =>
          rw [ht] at h
          obtain ⟨d', r'⟩ := dr
          obtain ⟨hd1, hr1⟩ : c :: d' = d ∧ r' = r := by simpa using h
          obtain ⟨hs, hd, hn'⟩ := ih d' r' ht
          subst hd1
          subst hr1
          refine ⟨by rw [hs]; rfl, ?_, ?_⟩
          · intro hmem
            rcases List.mem_cons.mp hmem with rfl | hmem'
            · exact hc rfl
            · exact hd hmem'
          · intro hmem
            rcases List.mem_cons.mp hmem with rfl | hmem'
            · exact hn rfl
            · exact hn' hmem'

theorem takeDesc_complete : ∀ (d r : Str), ']' ∉ d → '\n' ∉ d →
    takeDesc (d ++ ']' :: r) = some (d, r) := by
  intro d
  induction d with
  | nil => intro r _ _; simp [takeDesc]
  | cons c d ih =>
    intro r hb hn
    have hc : c ≠ ']' := fun h => hb (h ▸ List.mem_cons_self c d)
    have hcn : c ≠ '\n' := fun h => hn (h ▸ List.mem_cons_self c d)
    have hb' : ']' ∉ d := fun h => hb (List.mem_cons_of_mem c h)
    have hn' : '\n' ∉ d := fun h => hn (List.mem_cons_of_mem c h)
    show takeDesc (c :: (d ++ ']' :: r)) = some (c :: d, r)
    rw [takeDesc, if_neg hc, if_neg hcn, ih r hb' hn']

theorem takeDesc_length {s d r : Str} (h : takeDesc s = some (d, r)) :
    r.length < s.length := by
  obtain ⟨hs, -, -⟩ := takeDesc_some s d r h
  rw [hs]
  simp only [List.length_append, List.length_cons]
  omega

theorem scanF_eq : ∀ (fuel : Nat) (s : Str), s.length ≤ fuel →
    scanF fuel s = scanMarkers s := by
  intro fuel
  induction fuel using Nat.strong_induction_on with
  | _ fuel ih =>
    intro s hs
    match fuel, s with
    | 0, s =>
      have : s = [] := List.length_eq_zero.mp (Nat.le_zero.mp hs)
      subst this; rfl
    | fuel + 1, [] => rfl
    | fuel + 1, c :: s =>
      simp only [List.length_cons] at hs
      have hs' : s.length ≤ fuel := Nat.succ_le_succ_iff.mp hs
      show scanF (fuel + 1) (c :: s) = scanF (s.length + 1) (c :: s)
      by_cases hp : imgPat.isPrefixOf (c :: s)
      · cases ht : takeDesc ((c :: s).drop 8) with
        | some dr =>
          obtain ⟨d, r⟩ := dr
          have hr : r.length ≤ s.length := by
            have h1 := takeDesc_length ht
            have h2 : ((c :: s).drop 8).length = s.length + 1 - 8 := by
              simp [List.length_drop]
            omega
          show scanF (fuel + 1) (c :: s) = scanF (s.length + 1) (c :: s)
          rw [scanF, scanF, if_pos hp, if_pos hp, ht]
          show d :: scanF fuel r = d :: scanF s.length r
          have e1 : scanF fuel r = scanMarkers r :=
            ih fuel (Nat.lt_succ_self fuel) r (Nat.le_trans hr hs')
          have e2 : scanF s.length r = scanMarkers r :=
            ih s.length (Nat.lt_succ_of_le hs') r hr
          rw [e1, e2]
        | none =>
          rw [scanF, scanF, if_pos hp, if_pos hp, ht]
          have e1 : scanF fuel s = scanMarkers s :=
            ih fuel (Nat.lt_succ_self fuel) s hs'
          have e2 : scanF s.length s = scanMarkers s :=
            ih s.length (Nat.lt_succ_of_le hs') s (Nat.le_refl _)
          rw [e1, e2]
      · rw [scanF, scanF, if_neg hp, if_neg hp]
        have e1 : scanF fuel s = scanMarkers s :=
          ih fuel (Nat.lt_succ_self fuel) s hs'
        have e2 : scanF s.length s = scanMarkers s :=
          ih s.length (Nat.lt_succ_of_le hs') s (Nat.le_refl _)
        rw [e1, e2]

theorem scanMarkers_cons_nomatch {c : Char} {s : Str}
    (h : ¬ imgPat.isPrefixOf (c :: s)) :
    scanMarkers (c :: s) = scanMarkers s := by
  show scanF (s.length + 1) (c :: s) = scanMarkers s
  rw [scanF, if_neg h]
  exact scanF_eq s.length s (Nat.le_refl _)

theorem scanMarkers_cons_match {c : Char} {s : Str} (hp : imgPat.isPrefixOf (c :: s))
    {d r : Str} (ht : takeDesc ((c :: s).drop 8) = some (d, r)) :
    scanMarkers (c :: s) = d :: scanMarkers r := by
  show scanF (s.length + 1) (c :: s) = d :: scanMarkers r
  rw [scanF, if_pos hp, ht]
  show d :: scanF s.length r = _
  congr 1
  apply scanF_eq
  have h1 := takeDesc_length ht
  have h2 : ((c :: s).drop 8).length = s.length + 1 - 8 := by simp [List.length_drop]
  omega

theorem marker_append_eq (d w : Str) : markerStr d ++ w = imgPat ++ (d ++ ']' :: w) := by
  simp [markerStr, imgPat]

theorem scanMarkers_marker (d w : Str) (hb : ']' ∉ d) (hn : '\n' ∉ d) :
    scanMarkers (markerStr d ++ w) = d :: scanMarkers w := by
  rw [marker_append_eq]
  show scanMarkers ('[' :: ((("IMAGE: ").data) ++ (d ++ ']' :: w))) = d :: scanMarkers w
  apply scanMarkers_cons_match
  · rw [List.isPrefixOf_iff_prefix]
    exact ⟨d ++ ']' :: w, rfl⟩
  · show takeDesc (d ++ ']' :: w) = some (d, w)
    exact takeDesc_complete d w hb hn

theorem replaceF_eq (p r : Str) : ∀ (fuel : Nat) (s : Str), s.length ≤ fuel →
    replaceF p r fuel s = pyReplace s p r := by
  intro fuel
  induction fuel using Nat.strong_induction_on with
  | _ fuel ih =>
    intro s hs
    match fuel, s with
    | 0, s =>
      have : s = [] := List.length_eq_zero.mp (Nat.le_zero.mp hs)
      subst this; rfl
    | fuel + 1, [] => rfl
    | fuel + 1, c :: s =>
      simp only [List.length_cons] at hs
      have hs' : s.length ≤ fuel := Nat.succ_le_succ_iff.mp hs
      show replaceF p r (fuel + 1) (c :: s) = replaceF p r (s.length + 1) (c :: s)
      by_cases hp : p.isPrefixOf (c :: s) ∧ p ≠ []
      · rw [replaceF, replaceF, if_pos hp, if_pos hp]
        have hlen : 1 ≤ p.length := List.length_pos.mpr hp.2
        have hrem : ((c :: s).drop p.length).length ≤ s.length := by
          simp only [List.length_drop, List.length_cons]
          omega
        have e1 : replaceF p r fuel ((c :: s).drop p.length) =
            pyReplace ((c :: s).drop p.length) p r :=
          ih fuel (Nat.lt_succ_self fuel) _ (Nat.le_trans hrem hs')
        have e2 : replaceF p r s.length ((c :: s).drop p.length) =
            pyReplace ((c :: s).drop p.length) p r :=
          ih s.length (Nat.lt_succ_of_le hs') _ hrem
        rw [e1, e2]
      · rw [replaceF, replaceF, if_neg hp, if_neg hp]
        have e1 : replaceF p r fuel s = pyReplace s p r :=
          ih fuel (Nat.lt_succ_self fuel) s hs'
        have e2 : replaceF p r s.length s = pyReplace s p r :=
          ih s.length (Nat.lt_succ_of_le hs') s (Nat.le_refl _)
        rw [e1, e2]

theorem pyReplace_matched {p : Str} (w r : Str) (hne : p ≠ []) :
    pyReplace (p ++ w) p r = r ++ pyReplace w p r := by
  cases p with
  | nil => exact absurd rfl hne
  | cons a p' =>
    show replaceF (a :: p') r ((p' ++ w).length + 1) (a :: (p' ++ w)) = _
    rw [replaceF]
    rw [if_pos ?hc]
    case hc =>
      refine ⟨?_, hne⟩
      rw [List.isPrefixOf_iff_prefix]
      exact ⟨w, by simp⟩
    have hdrop : (a :: (p' ++ w)).drop (a :: p').length = w := by
      show (a :: (p' ++ w)).drop (p'.length + 1) = w
      rw [List.drop_succ_cons, List.drop_left]
    rw [hdrop]
    congr 1
    apply replaceF_eq
    simp only [List.length_append]
    omega

theorem pyReplace_cons_nomatch {p : Str} {c : Char} {s : Str} (r : Str)
    (h : ¬ p <+: (c :: s)) :
    pyReplace (c :: s) p r = c :: pyReplace s p r := by
  show replaceF p r (s.length + 1) (c :: s) = _
  rw [replaceF, if_neg ?hc]
  case hc =>
    intro hcontra
    exact h (List.isPrefixOf_iff_prefix.mp hcontra.1)
  rfl

theorem noStart_cons {q : Str} {c : Char} {u v : Str} (h : NoStart q (c :: u) v) :
    ¬ q <+: ((c :: u) ++ v) ∧ NoStart q u v := by
  constructor
  · have := h 0 (by simp)
    simpa using this
  · intro j hj
    have := h (j + 1) (by simp; omega)
    simpa [List.drop_succ_cons] using this

theorem replace_skip {q : Str} (r : Str) : ∀ (u v : Str), NoStart q u v →
    pyReplace (u ++ v) q r = u ++ pyReplace v q r := by
  intro u
  induction u with
  | nil => intro v _; rfl
  | cons c u ih =>
    intro v h
    obtain ⟨h0, h'⟩ := noStart_cons h
    have h0' : ¬ q <+: (c :: (u ++ v)) := by simpa using h0
    show pyReplace (c :: (u ++ v)) q r = c :: (u ++ pyReplace v q r)
    rw [pyReplace_cons_nomatch r h0', ih v h']

theorem scan_skip : ∀ (u v : Str), NoStart imgPat u v →
    scanMarkers (u ++ v) = scanMarkers v := by
  intro u
  induction u with
  | nil => intro v _; rfl
  | cons c u ih =>
    intro v h
    obtain ⟨h0, h'⟩ := noStart_cons h
    show scanMarkers (c :: (u ++ v)) = scanMarkers v
    rw [scanMarkers_cons_nomatch, ih v h']
    intro hcontra
    exact h0 (List.isPrefixOf_iff_prefix.mp hcontra)

theorem noStart_lift {q q' u v : Str} (hq : q <+: q') (h : NoStart q u v) :
    NoStart q' u v := by
  intro j hj hcontra
  exact h j hj (hq.trans hcontra)

theorem imgPat_pref_marker (d : Str) : imgPat <+: markerStr d :=
  ⟨d ++ [']'], by simp [imgPat, markerStr]⟩

theorem pref_append_cases {q u v : Str} (h : q <+: u ++ v) :
    q <+: u ∨ (u <+: q ∧ q.drop u.length <+: v) := by
  obtain ⟨t, ht⟩ := h
  rcases List.append_eq_append_iff.mp ht with ⟨a', ha1, ha2⟩ | ⟨c', hc1, hc2⟩
  · exact Or.inl ⟨a', ha1.symm⟩
  · right
    refine ⟨⟨c', hc1.symm⟩, ?_⟩
    rw [hc1, List.drop_left]
    exact ⟨t, hc2.symm⟩

theorem imgPat_drop_head : ∀ (m : Nat), 1 ≤ m → m < 8 →
    ∀ ch, (imgPat.drop m).head? = some ch → ch ∈ contHeads := by
  intro m h1 h2
  interval_cases m <;> (intro ch hch; simp [imgPat] at hch; subst hch; decide)

theorem seg_noStart {s : Str} (v : Str) (hinf : ¬ imgPat <:+: s)
    (hv : ∀ ch, v.head? = some ch → ch ∉ contHeads) : NoStart imgPat s v := by
  intro j hj hpref
  have hdrop : (s ++ v).drop j = s.drop j ++ v := by
    rw [List.drop_append_eq_append_drop]
    have hz : j - s.length = 0 := by omega
    rw [hz, List.drop_zero]
  rw [hdrop] at hpref
  rcases pref_append_cases hpref with hA | ⟨hB1, hB2⟩
  · exact hinf (hA.isInfix.trans (List.drop_suffix j s).isInfix)
  · have h8 : imgPat.length = 8 := by decide
    have hmlen : (s.drop j).length = s.length - j := List.length_drop j s
    have hm1 : 1 ≤ (s.drop j).length := by omega
    have hm8 : (s.drop j).length ≤ 8 := by
      have hle := hB1.length_le
      omega
    by_cases hme : (s.drop j).length = 8
    · have heq : s.drop j = imgPat := hB1.eq_of_length (by omega)
      exact hinf (heq ▸ (List.drop_suffix j s).isInfix)
    · have hlt : (s.drop j).length < 8 := Nat.lt_of_le_of_ne hm8 hme
      have hne : imgPat.drop (s.drop j).length ≠ [] := by
        intro hcontra
        have hlen0 := congrArg List.length hcontra
        rw [List.length_drop] at hlen0
        simp only [List.length_nil] at hlen0
        omega
      cases hdm : imgPat.drop (s.drop j).length with
      | nil => exact hne hdm
      | cons ch rest =>
        obtain ⟨t2, ht2⟩ := hB2
        rw [hdm] at ht2
        have hvhead : v.head? = some ch := by rw [← ht2]; rfl
        have hch : ch ∈ contHeads := by
          apply imgPat_drop_head (s.drop j).length hm1 hlt
          rw [hdm]; rfl
        exact hv ch hvhead hch

theorem markTail_noStart {d : Str} (hd : '[' ∉ d) (v : Str) :
    ∀ j, 1 ≤ j → j < (markerStr d).length →
    ¬ imgPat <+: ((markerStr d ++ v).drop j) := by
  intro j h1 hj hpref
  have hhead : ((markerStr d ++ v).drop j).head? = some '[' := by
    obtain ⟨t, ht⟩ := hpref
    rw [← ht]; rfl
  rw [List.head?_drop] at hhead
  have hj' : (markerStr d ++ v)[j]? = (markerStr d)[j]? := by
    rw [List.getElem?_append, if_pos hj]
  rw [hj'] at hhead
  have hmem : '[' ∈ (markerStr d).drop 1 := by
    have h2 : ((markerStr d).drop 1)[j - 1]? = some '[' := by
      rw [List.getElem?_drop]
      have he : 1 + (j - 1) = j := by omega
      rw [he]; exact hhead
    exact List.getElem?_mem h2
  have hd1 : (markerStr d).drop 1 = (("IMAGE: ").data ++ d) ++ [']'] := rfl
  rw [hd1] at hmem
  rcases List.mem_append.mp hmem with hmem1 | hmem2
  · rcases List.mem_append.mp hmem1 with hA | hD
    · exact absurd hA (by decide)
    · exact hd hD
  · exact absurd hmem2 (by decide)

theorem rep_noStart {rp : Str} (hr : repOK rp) (v : Str) : NoStart imgPat rp v := by
  intro j hj hpref
  have hdrop : (rp ++ v).drop j = rp.drop j ++ v := by
    rw [List.drop_append_eq_append_drop]
    have hz : j - rp.length = 0 := by omega
    rw [hz, List.drop_zero]
  rw [hdrop] at hpref
  rcases pref_append_cases hpref with hA | ⟨hB1, hB2⟩
  · exact hr.1 (hA.isInfix.trans (List.drop_suffix j rp).isInfix)
  · have hne : rp.drop j ≠ [] := by
      intro hcontra
      have hc := congrArg List.length hcontra
      rw [List.length_drop] at hc
      simp only [List.length_nil] at hc
      omega
    have hch := List.getLast_mem hne
    have hch_in : (rp.drop j).getLast hne ∈ imgPat := hB1.subset hch
    have hlast : rp.getLast? = some ((rp.drop j).getLast hne) := by
      have hl1 : (rp.drop j).getLast? = some ((rp.drop j).getLast hne) :=
        List.getLast?_eq_getLast _ hne
      conv_lhs => rw [← List.take_append_drop j rp]
      rw [List.getLast?_append_of_ne_nil _ hne]
      exact hl1
    exact hr.2.2.2 _ hlast hch_in

theorem noStart_append {q u v w : Str} (h1 : NoStart q u (v ++ w)) (h2 : NoStart q v w) :
    NoStart q (u ++ v) w := by
  intro j hj hpref
  rw [List.length_append] at hj
  by_cases hju : j < u.length
  · apply h1 j hju
    rw [← List.append_assoc]
    exact hpref
  · rw [List.append_assoc] at hpref
    have hdrop : (u ++ (v ++ w)).drop j = (v ++ w).drop (j - u.length) := by
      rw [List.drop_append_eq_append_drop]
      have hu : u.drop j = [] := List.drop_eq_nil_of_le (by omega)
      rw [hu, List.nil_append]
    rw [hdrop] at hpref
    exact h2 (j - u.length) (by omega) hpref

theorem noStart_no_infix {q x : Str} (hq : q ≠ []) (h : NoStart q x []) : ¬ q <:+: x := by
  intro hinf
  obtain ⟨u, v, huv⟩ := hinf
  have hlen : u.length < x.length := by
    have hc := congrArg List.length huv
    simp only [List.length_append] at hc
    have hql : 1 ≤ q.length := List.length_pos.mpr hq
    omega
  apply h u.length hlen
  rw [List.append_nil, ← huv, List.append_assoc, List.drop_left]
  exact ⟨v, rfl⟩

theorem markerStr_ne_nil (d : Str) : markerStr d ≠ [] := by
  simp [markerStr]

theorem markerStr_head (d t : Str) : (markerStr d ++ t).head? = some '[' := rfl

theorem pieceFlat_head_safe {p : Piece} (hp : pieceOK p) (t : Str) :
    ∀ ch, (p.flat ++ t).head? = some ch → ch ∉ contHeads := by
  cases p with
  | und d =>
    intro ch hch
    rw [show (Piece.und d).flat = markerStr d from rfl, markerStr_head] at hch
    obtain rfl : '[' = ch := by simpa using hch
    decide
  | rep r =>
    intro ch hch
    obtain ⟨-, hne, hh, -⟩ := (hp : repOK r)
    apply hh
    cases r with
    | nil => exact absurd rfl hne
    | cons a r' => exact hch

theorem descs_pref_eq : ∀ (a b t : Str), ']' ∉ a → ']' ∉ b →
    (a ++ [']']) <+: (b ++ ']' :: t) → a = b := by
  intro a
  induction a with
  | nil =>
    intro b t ha hb hpref
    cases b with
    | nil => rfl
    | cons cb b' =>
      have hpref' : ([']'] : Str) <+: cb :: (b' ++ ']' :: t) := by simpa using hpref
      rcases List.cons_prefix_cons.mp hpref' with ⟨hc, -⟩
      exact absurd (by rw [← hc]; exact List.mem_cons_self _ _) hb
  | cons c a' ih =>
    intro b t ha hb hpref
    have ha' : ']' ∉ a' := fun hmem => ha (List.mem_cons_of_mem c hmem)
    cases b with
    | nil =>
      have hpref' : (c :: (a' ++ [']'])) <+: (']' :: t) := by simpa using hpref
      rcases List.cons_prefix_cons.mp hpref' with ⟨hc, -⟩
      exact absurd (by rw [hc]; exact List.mem_cons_self _ _) ha
    | cons cb b' =>
      have hb' : ']' ∉ b' := fun hmem => hb (List.mem_cons_of_mem cb hmem)
      have hpref' : (c :: (a' ++ [']'])) <+: cb :: (b' ++ ']' :: t) := by simpa using hpref
      rcases List.cons_prefix_cons.mp hpref' with ⟨hc, htail⟩
      rw [hc, ih b' t ha' hb' htail]

theorem flattenMarkers_eq_pieces : ∀ (ds : List (Str × Str)) (s0 : Str),
    flattenMarkers s0 ds =
      flattenPieces s0 (ds.map (fun q => (Piece.und q.1, q.2))) := by
  intro ds
  induction ds with
  | nil => intro s0; rfl
  | cons q ds ih =>
    intro s0
    obtain ⟨d, s⟩ := q
    show s0 ++ (markerStr d ++ flattenMarkers s ds) = _
    rw [ih s]
    rfl

theorem scanMarkers_flattenMarkers : ∀ (ds : List (Str × Str)) (s0 : Str),
    segOK s0 → (∀ q ∈ ds, goodDesc q.1 ∧ segOK q.2) →
    scanMarkers (flattenMarkers s0 ds) = ds.map Prod.fst := by
  intro ds
  induction ds with
  | nil =>
    intro s0 h0 _
    have h := scan_skip s0 [] (seg_noStart [] h0 (by simp))
    simpa using h
  | cons q ds ih =>
    intro s0 h0 hds
    obtain ⟨d, s⟩ := q
    obtain ⟨hdgood, hsseg⟩ := hds (d, s) (List.mem_cons_self _ _)
    have hds' : ∀ q ∈ ds, goodDesc q.1 ∧ segOK q.2 :=
      fun q hq => hds q (List.mem_cons_of_mem _ hq)
    show scanMarkers (s0 ++ (markerStr d ++ flattenMarkers s ds)) = d :: ds.map Prod.fst
    rw [scan_skip s0 _ (seg_noStart _ h0 ?hhead)]
    case hhead =>
      intro ch hch
      rw [markerStr_head] at hch
      obtain rfl : '[' = ch := by simpa using hch
      decide
    rw [scanMarkers_marker d _ hdgood.2.1 hdgood.2.2, ih s hsseg hds']

theorem marker_eq_pat_append (d : Str) : markerStr d = imgPat ++ (d ++ [']']) := by
  simp [markerStr, imgPat]

theorem pyReplace_flatten (di ri : Str) (hd : goodDesc di) (hr : repOK ri) :
    ∀ (ps : List (Piece × Str)) (s0 : Str), chunksOK s0 ps →
    pyReplace (flattenPieces s0 ps) (markerStr di) ri =
      flattenPieces s0 (ps.map (fun q => (replacePiece di ri q.1, q.2))) := by
  intro ps
  induction ps with
  | nil =>
    intro s0 h
    show pyReplace s0 (markerStr di) ri = s0
    have hns : NoStart (markerStr di) s0 [] :=
      noStart_lift (imgPat_pref_marker di) (seg_noStart [] h.1 (by simp))
    have he := replace_skip ri s0 [] hns
    have hnil : pyReplace [] (markerStr di) ri = [] := rfl
    simpa [hnil] using he
  | cons q ps ih =>
    intro s0 h
    obtain ⟨p, s⟩ := q
    obtain ⟨hpOK, hsOK⟩ := h.2 (p, s) (List.mem_cons_self _ _)
    have hps : chunksOK s ps := ⟨hsOK, fun q hq => h.2 q (List.mem_cons_of_mem _ hq)⟩
    show pyReplace (s0 ++ (p.flat ++ flattenPieces s ps)) (markerStr di) ri =
      s0 ++ ((replacePiece di ri p).flat ++
        flattenPieces s (ps.map (fun q => (replacePiece di ri q.1, q.2))))
    rw [replace_skip ri s0 _ (noStart_lift (imgPat_pref_marker di)
      (seg_noStart _ h.1 (pieceFlat_head_safe hpOK _)))]
    congr 1
    cases p with
    | und d =>
      have hg : goodDesc d := hpOK
      by_cases hdd : d = di
      · subst hdd
        show pyReplace (markerStr d ++ flattenPieces s ps) (markerStr d) ri = _
        rw [pyReplace_matched _ ri (markerStr_ne_nil d), ih s hps]
        simp [replacePiece, Piece.flat]
      · have hnd : NoStart (markerStr di) (markerStr d) (flattenPieces s ps) := by
          intro j hj hpref
          cases Nat.eq_zero_or_pos j with
          | inl hj0 =>
            subst hj0
            rw [List.drop_zero] at hpref
            rw [marker_eq_pat_append di, marker_append_eq] at hpref
            have hstrip := (List.prefix_append_right_inj imgPat).mp hpref
            exact hdd (descs_pref_eq di d _ hd.2.1 hg.2.1 hstrip).symm
          | inr hj1 =>
            exact markTail_noStart hg.1 _ j hj1 hj ((imgPat_pref_marker di).trans hpref)
        show pyReplace (markerStr d ++ flattenPieces s ps) (markerStr di) ri = _
        rw [replace_skip ri _ _ hnd, ih s hps]
        simp [replacePiece, hdd, Piece.flat]
    | rep r =>
      have hnr : NoStart (markerStr di) r (flattenPieces s ps) :=
        noStart_lift (imgPat_pref_marker di) (rep_noStart hpOK _)
      show pyReplace (r ++ flattenPieces s ps) (markerStr di) ri = _
      rw [replace_skip ri _ _ hnr, ih s hps]
      rfl

theorem flatten_noStart : ∀ (ps : List (Piece × Str)) (s0 : Str), chunksOK s0 ps →
    (∀ q ∈ ps, ∃ r, q.1 = Piece.rep r) →
    NoStart imgPat (flattenPieces s0 ps) [] := by
  intro ps
  induction ps with
  | nil =>
    intro s0 h _
    exact seg_noStart [] h.1 (by simp)
  | cons q ps ih =>
    intro s0 h hall
    obtain ⟨p, s⟩ := q
    obtain ⟨r, hrp⟩ := hall (p, s) (List.mem_cons_self _ _)
    obtain ⟨hpOK, hsOK⟩ := h.2 (p, s) (List.mem_cons_self _ _)
    subst hrp
    have hrOK : repOK r := hpOK
    have hps : chunksOK s ps := ⟨hsOK, fun q hq => h.2 q (List.mem_cons_of_mem _ hq)⟩
    have hall' : ∀ q ∈ ps, ∃ r', q.1 = Piece.rep r' :=
      fun q hq => hall q (List.mem_cons_of_mem _ hq)
    have hF : NoStart imgPat (flattenPieces s ps) [] := ih s hps hall'
    have hrF : NoStart imgPat r (flattenPieces s ps ++ []) := rep_noStart hrOK _
    have hcomb : NoStart imgPat (r ++ flattenPieces s ps) [] := noStart_append hrF hF
    have hs0 : NoStart imgPat s0 ((r ++ flattenPieces s ps) ++ []) := by
      rw [List.append_nil]
      apply seg_noStart _ h.1
      exact pieceFlat_head_safe hpOK (flattenPieces s ps)
    exact noStart_append hs0 hcomb

theorem flatten_no_imgPat (ps : List (Piece × Str)) (s0 : Str) (h : chunksOK s0 ps)
    (hall : ∀ q ∈ ps, ∃ r, q.1 = Piece.rep r) :
    ¬ imgPat <:+: flattenPieces s0 ps :=
  noStart_no_infix (by decide) (flatten_noStart ps s0 h hall)

theorem imgTag_repOK (t u : Str) (hinf : ¬ imgPat <:+: imgTag t u) : repOK (imgTag t u) := by
  refine ⟨hinf, by simp [imgTag], ?_, ?_⟩
  · intro ch hch
    have hh : (imgTag t u).head? = some '!' := rfl
    rw [hh] at hch
    obtain rfl : '!' = ch := by simpa using hch
    decide
  · intro ch hch
    have hl : (imgTag t u).getLast? = some ')' := by
      rw [imgTag, List.getLast?_append_of_ne_nil _ (by decide)]
      rfl
    rw [hl] at hch
    obtain rfl : ')' = ch := by simpa using hch
    decide

theorem errorComment_repOK (d m : Str) (hinf : ¬ imgPat <:+: errorComment d m) :
    repOK (errorComment d m) := by
  refine ⟨hinf, by simp [errorComment], ?_, ?_⟩
  · intro ch hch
    have hh : (errorComment d m).head? = some '<' := rfl
    rw [hh] at hch
    obtain rfl : '<' = ch := by simpa using hch
    decide
  · intro ch hch
    have hl : (errorComment d m).getLast? = some '>' := by
      rw [errorComment, List.getLast?_append_of_ne_nil _ (by decide)]
      rfl
    rw [hl] at hch
    obtain rfl : '>' = ch := by simpa using hch
    decide

theorem resolveMarker_shape (env : ImgSearchEnv) (cache : UrlCache) (subject desc : Str)
    (i : Nat) : ∃ u, (resolveMarker env cache subject desc i).1 = imgTag desc u := by
  unfold resolveMarker
  split
  · exact ⟨_, rfl⟩
  · split
    · exact ⟨_, rfl⟩
    · split
      · exact ⟨_, rfl⟩
      · split
        · exact ⟨_, rfl⟩
        · exact ⟨_, rfl⟩

theorem chunksOK_replace {s0 : Str} {ps : List (Piece × Str)} (h : chunksOK s0 ps)
    (di ri : Str) (hr : repOK ri) :
    chunksOK s0 (ps.map (fun q => (replacePiece di ri q.1, q.2))) := by
  refine ⟨h.1, ?_⟩
  intro q hq
  rw [List.mem_map] at hq
  obtain ⟨q', hq', rfl⟩ := hq
  obtain ⟨hp, hs⟩ := h.2 q' hq'
  refine ⟨?_, hs⟩
  cases hq1 : q'.1 with
  | und d =>
    rw [hq1] at hp
    by_cases hdd : d = di
    · simp only [replacePiece, if_pos hdd]
      exact hr
    · simp only [replacePiece, if_neg hdd]
      exact hp
  | rep r =>
    rw [hq1] at hp
    simp only [replacePiece]
    exact hp

theorem replaceLoop_flatten (env : ImgSearchEnv) (exc : Nat → Str → Option Str)
    (subject : Str) :
    ∀ (dsQ : List Str) (i : Nat) (cache : UrlCache) (s0 : Str) (ps : List (Piece × Str)),
      chunksOK s0 ps →
      (∀ d ∈ dsQ, goodDesc d) →
      (∀ d, (∃ s, (Piece.und d, s) ∈ ps) → d ∈ dsQ) →
      (∀ r ∈ (replaceLoop env exc subject (flattenPieces s0 ps) cache i dsQ).2.2,
        ¬ imgPat <:+: r) →
      ∃ σ : Str → Str,
        (replaceLoop env exc subject (flattenPieces s0 ps) cache i dsQ).1 =
          flattenPieces s0 (ps.map (fun q => (finishPiece σ q.1, q.2))) ∧
        ∀ d ∈ dsQ, repOK (σ d) ∧
          ∃ j, dsQ[j]? = some d ∧ (∀ k < j, dsQ[k]? ≠ some d) ∧
            ((∃ msg, exc (i + j) d = some msg ∧ σ d = errorComment d msg) ∨
             (exc (i + j) d = none ∧ ∃ u, σ d = imgTag d u)) := by
  intro dsQ
  induction dsQ with
  | nil =>
    intro i cache s0 ps hOK hgood hpending hrep
    refine ⟨fun _ => [], ?_, by simp⟩
    show flattenPieces s0 ps = _
    congr 1
    have hid : ∀ q ∈ ps, (finishPiece (fun _ => ([] : Str)) q.1, q.2) = id q := by
      intro q hq
      cases hq1 : q.1 with
      | und d =>
        exact absurd (hpending d ⟨q.2, by rw [← hq1]; exact hq⟩) (by simp)
      | rep r => simp [finishPiece, ← hq1]
    rw [List.map_congr_left hid, List.map_id]
  | cons d ds ih =>
    intro i cache s0 ps hOK hgood hpending hrep
    have hdg : goodDesc d := hgood d (List.mem_cons_self _ _)
    cases hexc : exc i d with
    | some msg =>
      have hused : (replaceLoop env exc subject (flattenPieces s0 ps) cache i (d :: ds)).2.2 =
          errorComment d msg ::
            (replaceLoop env exc subject
              (pyReplace (flattenPieces s0 ps) (markerStr d) (errorComment d msg))
              cache (i + 1) ds).2.2 := by
        simp only [replaceLoop, hexc]
      have hresult : (replaceLoop env exc subject (flattenPieces s0 ps) cache i (d :: ds)).1 =
          (replaceLoop env exc subject
            (pyReplace (flattenPieces s0 ps) (markerStr d) (errorComment d msg))
            cache (i + 1) ds).1 := by
        simp only [replaceLoop, hexc]
      have hinf : ¬ imgPat <:+: errorComment d msg := by
        apply hrep
        rw [hused]
        exact List.mem_cons_self _ _
      have hrOK : repOK (errorComment d msg) := errorComment_repOK d msg hinf
      have hstep := pyReplace_flatten d (errorComment d msg) hdg hrOK ps s0 hOK
      have hOK' := chunksOK_replace hOK d (errorComment d msg) hrOK
      have hpending' : ∀ d', (∃ s, (Piece.und d', s) ∈
          ps.map (fun q => (replacePiece d (errorComment d msg) q.1, q.2))) → d' ∈ ds := by
        intro d' ⟨s, hmem⟩
        rw [List.mem_map] at hmem
        obtain ⟨q', hq', heq⟩ := hmem
        have hq1 : replacePiece d (errorComment d msg) q'.1 = Piece.und d' := congrArg Prod.fst heq
        have hq2 : q'.2 = s := congrArg Prod.snd heq
        cases hc : q'.1 with
        | rep r => rw [hc] at hq1; exact absurd hq1 (by simp [replacePiece])
        | und d'' =>
          rw [hc] at hq1
          by_cases hdd : d'' = d
          · rw [replacePiece, if_pos hdd] at hq1
            exact absurd hq1 (by simp)
          · rw [replacePiece, if_neg hdd] at hq1
            obtain rfl : d'' = d' := by simpa using hq1
            have hin := hpending d'' ⟨q'.2, by rw [← hc]; exact hq'⟩
            rcases List.mem_cons.mp hin with heq' | hin'
            · exact absurd heq' hdd
            · exact hin'
      have hrep' : ∀ r ∈ (replaceLoop env exc subject
          (flattenPieces s0 (ps.map (fun q => (replacePiece d (errorComment d msg) q.1, q.2))))
          cache (i + 1) ds).2.2, ¬ imgPat <:+: r := by
        intro r hr
        apply hrep
        rw [hused]
        apply List.mem_cons_of_mem
        rw [hstep]
        exact hr
      obtain ⟨σ', hσ1, hσ2⟩ := ih (i + 1) cache s0 _ hOK'
        (fun d' hd' => hgood d' (List.mem_cons_of_mem _ hd')) hpending' hrep'
      refine ⟨fun x => if x = d then errorComment d msg else σ' x, ?_, ?_⟩
      · rw [hresult, hstep, hσ1]
        congr 1
        rw [List.map_map]
        apply List.map_congr_left
        intro q hq
        cases hc : q.1 with
        | und d'' =>
          by_cases hdd : d'' = d
          · subst hdd
            simp [replacePiece, finishPiece, hc]
          · simp [replacePiece, finishPiece, hc, hdd]
        | rep r => simp [replacePiece, finishPiece, hc]
      · intro d' hd'
        by_cases hdd : d' = d
        · subst hdd
          have hval : (fun x => if x = d' then errorComment d' msg else σ' x) d' =
              errorComment d' msg := by
            show (if d' = d' then errorComment d' msg else σ' d') = _
            rw [if_pos rfl]
          rw [hval]
          refine ⟨hrOK, 0, by simp, ?_, Or.inl ⟨msg, by simpa using hexc, rfl⟩⟩
          intro k hk
          exact absurd hk (Nat.not_lt_zero k)
        · have hval : (fun x => if x = d then errorComment d msg else σ' x) d' = σ' d' := by
            show (if d' = d then errorComment d msg else σ' d') = _
            rw [if_neg hdd]
          rw [hval]
          rcases List.mem_cons.mp hd' with heq' | hin'
          · exact absurd heq' hdd
          · obtain ⟨h1, j', hj1, hj2, hj3⟩ := hσ2 d' hin'
            refine ⟨h1, j' + 1, by simpa using hj1, ?_, ?_⟩
            · intro k hk
              cases k with
              | zero =>
                simp only [List.getElem?_cons_zero]
                intro hkk
                exact hdd (Option.some.inj hkk).symm
              | succ k' =>
                simp only [List.getElem?_cons_succ]
                exact hj2 k' (by omega)
            · have harith : i + (j' + 1) = (i + 1) + j' := by omega
              rw [harith]
              exact hj3
    | none =>
      obtain ⟨u, hu⟩ := resolveMarker_shape env cache subject d i
      have hused : (replaceLoop env exc subject (flattenPieces s0 ps) cache i (d :: ds)).2.2 =
          (resolveMarker env cache subject d i).1 ::
            (replaceLoop env exc subject
              (pyReplace (flattenPieces s0 ps) (markerStr d)
                (resolveMarker env cache subject d i).1)
              (resolveMarker env cache subject d i).2 (i + 1) ds).2.2 := by
        simp only [replaceLoop, hexc]
      have hresult : (replaceLoop env exc subject (flattenPieces s0 ps) cache i (d :: ds)).1 =
          (replaceLoop env exc subject
            (pyReplace (flattenPieces s0 ps) (markerStr d)
              (resolveMarker env cache subject d i).1)
            (resolveMarker env cache subject d i).2 (i + 1) ds).1 := by
        simp only [replaceLoop, hexc]
      have hinf : ¬ imgPat <:+: (resolveMarker env cache subject d i).1 := by
        apply hrep
        rw [hused]
        exact List.mem_cons_self _ _
      have hrOK : repOK (resolveMarker env cache subject d i).1 := by
        rw [hu] at hinf ⊢
        exact imgTag_repOK d u hinf
      have hstep := pyReplace_flatten d (resolveMarker env cache subject d i).1 hdg hrOK ps s0 hOK
      have hOK' := chunksOK_replace hOK d (resolveMarker env cache subject d i).1 hrOK
      have hpending' : ∀ d', (∃ s, (Piece.und d', s) ∈
          ps.map (fun q => (replacePiece d (resolveMarker env cache subject d i).1 q.1, q.2))) →
          d' ∈ ds := by
        intro d' ⟨s, hmem⟩
        rw [List.mem_map] at hmem
        obtain ⟨q', hq', heq⟩ := hmem
        have hq1 : replacePiece d (resolveMarker env cache subject d i).1 q'.1 = Piece.und d' :=
          congrArg Prod.fst heq
        cases hc : q'.1 with
        | rep r => rw [hc] at hq1; exact absurd hq1 (by simp [replacePiece])
        | und d'' =>
          rw [hc] at hq1
          by_cases hdd : d'' = d
          · rw [replacePiece, if_pos hdd] at hq1
            exact absurd hq1 (by simp)
          · rw [replacePiece, if_neg hdd] at hq1
            obtain rfl : d'' = d' := by simpa using hq1
            have hin := hpending d'' ⟨q'.2, by rw [← hc]; exact hq'⟩
            rcases List.mem_cons.mp hin with heq' | hin'
            · exact absurd heq' hdd
            · exact hin'
      have hrep' : ∀ r ∈ (replaceLoop env exc subject
          (flattenPieces s0
            (ps.map (fun q => (replacePiece d (resolveMarker env cache subject d i).1 q.1, q.2))))
          (resolveMarker env cache subject d i).2 (i + 1) ds).2.2, ¬ imgPat <:+: r := by
        intro r hr
        apply hrep
        rw [hused]
        apply List.mem_cons_of_mem
        rw [hstep]
        exact hr
      obtain ⟨σ', hσ1, hσ2⟩ := ih (i + 1) (resolveMarker env cache subject d i).2 s0 _ hOK'
        (fun d' hd' => hgood d' (List.mem_cons_of_mem _ hd')) hpending' hrep'
      refine ⟨fun x => if x = d then (resolveMarker env cache subject d i).1 else σ' x, ?_, ?_⟩
      · rw [hresult, hstep, hσ1]
        congr 1
        rw [List.map_map]
        apply List.map_congr_left
        intro q hq
        cases hc : q.1 with
        | und d'' =>
          by_cases hdd : d'' = d
          · subst hdd
            simp [replacePiece, finishPiece, hc]
          · simp [replacePiece, finishPiece, hc, hdd]
        | rep r => simp [replacePiece, finishPiece, hc]
      · intro d' hd'
        by_cases hdd : d' = d
        · subst hdd
          have hval : (fun x => if x = d' then (resolveMarker env cache subject d' i).1
              else σ' x) d' = (resolveMarker env cache subject d' i).1 := by
            show (if d' = d' then (resolveMarker env cache subject d' i).1 else σ' d') = _
            rw [if_pos rfl]
          rw [hval]
          refine ⟨hrOK, 0, by simp, ?_, Or.inr ⟨by simpa using hexc, u, hu⟩⟩
          intro k hk
          exact absurd hk (Nat.not_lt_zero k)
        · have hval : (fun x => if x = d then (resolveMarker env cache subject d i).1
              else σ' x) d' = σ' d' := by
            show (if d' = d then (resolveMarker env cache subject d i).1 else σ' d') = _
            rw [if_neg hdd]
          rw [hval]
          rcases List.mem_cons.mp hd' with heq' | hin'
          · exact absurd heq' hdd
          · obtain ⟨h1, j', hj1, hj2, hj3⟩ := hσ2 d' hin'
            refine ⟨h1, j' + 1, by simpa using hj1, ?_, ?_⟩
            · intro k hk
              cases k with
              | zero =>
                simp only [List.getElem?_cons_zero]
                intro hkk
                exact hdd (Option.some.inj hkk).symm
              | succ k' =>
                simp only [List.getElem?_cons_succ]
                exact hj2 k' (by omega)
            · have harith : i + (j' + 1) = (i + 1) + j' := by omega
              rw [harith]
              exact hj3

/-- C2 amended, main theorem: take any article decomposed into plain segments
(free of "[IMAGE: ") interleaved with exactly-formatted markers
"[IMAGE: description]" whose descriptions contain no brackets and no newline;
whenever the replacement strings produced during the run are themselves free
of "[IMAGE: ", the output of replace_image_placeholders contains zero
occurrences of "[IMAGE: ", and every marker has been replaced according to
the exception oracle at the first occurrence j of its description: by the
inline error comment carrying that description and the oracle message
exactly when the oracle fired there, and by a markdown image tag with the
description as alt text when it did not. -/
theorem replace_image_placeholders_resolves (env : ImgSearchEnv)
    (exc : Nat → Str → Option Str) (cache : UrlCache) (subject s0 : Str)
    (ds : List (Str × Str))
    (hwf : segOK s0 ∧ ∀ q ∈ ds, goodDesc q.1 ∧ segOK q.2)
    (hne : ds ≠ [])
    (hrep : ∀ r ∈ (replaceLoop env exc subject (flattenMarkers s0 ds) cache 0
        (ds.map Prod.fst)).2.2, ¬ imgPat <:+: r) :
    ¬ imgPat <:+: (replace_image_placeholders env exc cache (flattenMarkers s0 ds) subject).1 ∧
    ∃ σ : Str → Str,
      (replace_image_placeholders env exc cache (flattenMarkers s0 ds) subject).1 =
        flattenPieces s0 (ds.map (fun q => (Piece.rep (σ q.1), q.2))) ∧
      ∀ q ∈ ds,
        ∃ j, (ds.map Prod.fst)[j]? = some q.1 ∧
          (∀ k < j, (ds.map Prod.fst)[k]? ≠ some q.1) ∧
          ((∃ msg, exc j q.1 = some msg ∧ σ q.1 = errorComment q.1 msg) ∨
           (exc j q.1 = none ∧ ∃ u, σ q.1 = imgTag q.1 u)) := by
  have hscan : scanMarkers (flattenMarkers s0 ds) = ds.map Prod.fst :=
    scanMarkers_flattenMarkers ds s0 hwf.1 hwf.2
  have hnotempty : (ds.map Prod.fst).isEmpty = false := by
    cases ds with
    | nil => exact absurd rfl hne
    | cons q ds' => rfl
  have hproj : (replace_image_placeholders env exc cache (flattenMarkers s0 ds) subject).1 =
      (replaceLoop env exc subject (flattenMarkers s0 ds) cache 0 (ds.map Prod.fst)).1 := by
    unfold replace_image_placeholders
    rw [hscan, hnotempty]
    rfl
  have hOK : chunksOK s0 (ds.map (fun q => (Piece.und q.1, q.2))) := by
    refine ⟨hwf.1, ?_⟩
    intro q hq
    rw [List.mem_map] at hq
    obtain ⟨q', hq', rfl⟩ := hq
    exact ⟨(hwf.2 q' hq').1, (hwf.2 q' hq').2⟩
  have hgood : ∀ d ∈ ds.map Prod.fst, goodDesc d := by
    intro d hd
    rw [List.mem_map] at hd
    obtain ⟨q, hq, rfl⟩ := hd
    exact (hwf.2 q hq).1
  have hpending : ∀ d, (∃ s, (Piece.und d, s) ∈ ds.map (fun q => (Piece.und q.1, q.2))) →
      d ∈ ds.map Prod.fst := by
    intro d ⟨s, hmem⟩
    rw [List.mem_map] at hmem
    obtain ⟨q', hq', heq⟩ := hmem
    have hfst : q'.1 = d := by
      have hf := congrArg Prod.fst heq
      simpa using hf
    exact List.mem_map.mpr ⟨q', hq', hfst⟩
  have hflat : flattenMarkers s0 ds =
      flattenPieces s0 (ds.map (fun q => (Piece.und q.1, q.2))) :=
    flattenMarkers_eq_pieces ds s0
  have hrep' : ∀ r ∈ (replaceLoop env exc subject
      (flattenPieces s0 (ds.map (fun q => (Piece.und q.1, q.2)))) cache 0
      (ds.map Prod.fst)).2.2, ¬ imgPat <:+: r := by
    rw [← hflat]
    exact hrep
  obtain ⟨σ, hσ1, hσ2⟩ := replaceLoop_flatten env exc subject (ds.map Prod.fst) 0 cache s0
    (ds.map (fun q => (Piece.und q.1, q.2))) hOK hgood hpending hrep'
  have hfinal : (replace_image_placeholders env exc cache (flattenMarkers s0 ds) subject).1 =
      flattenPieces s0 (ds.map (fun q => (Piece.rep (σ q.1), q.2))) := by
    rw [hproj, hflat, hσ1, List.map_map]
    congr 1
  have hσok : ∀ q ∈ ds, repOK (σ q.1) := by
    intro q hq
    exact (hσ2 q.1 (List.mem_map.mpr ⟨q, hq, rfl⟩)).1
  refine ⟨?_, σ, hfinal, ?_⟩
  · rw [hfinal]
    apply flatten_no_imgPat
    · refine ⟨hwf.1, ?_⟩
      intro q hq
      rw [List.mem_map] at hq
      obtain ⟨q', hq', rfl⟩ := hq
      exact ⟨hσok q' hq', (hwf.2 q' hq').2⟩
    · intro q hq
      rw [List.mem_map] at hq
      obtain ⟨q', hq', rfl⟩ := hq
      exact ⟨σ q'.1, rfl⟩
  · intro q hq
    obtain ⟨j, h1, h2, h3⟩ := (hσ2 q.1 (List.mem_map.mpr ⟨q, hq, rfl⟩)).2
    exact ⟨j, h1, h2, by simpa using h3⟩

/-- C2 counterexample: a marker with the bracket-delimited case-sensitive
prefix "IMAGE:" but no space after the colon is not matched by the pattern
r'\[IMAGE: (.*?)\]', so the body is returned untouched and the marker
remains in the output. -/
theorem replace_image_placeholders_nospace_counterexample :
    (replace_image_placeholders envNone excNone [] (("see [IMAGE:cat] here").data)
        (("s").data)).1 = ("see [IMAGE:cat] here").data ∧
    ("[IMAGE:cat]").data <:+:
      (replace_image_placeholders envNone excNone [] (("see [IMAGE:cat] here").data)
        (("s").data)).1 := by
  constructor
  · decide
  · decide

/-- Witness for replace_image_placeholders_resolves: the article
"intro [IMAGE: cats] outro" has its single marker replaced by a markdown
image tag, and the theorem yields the no-remaining-marker property. -/
theorem replace_image_placeholders_resolves_witness :
    (replace_image_placeholders envPixabay excNone []
        (flattenMarkers (("intro ").data) [((("cats").data), ((" outro").data))])
        (("s").data)).1 =
      ("intro ![cats](https://cdn.pixabay.com/photo/x.jpg) outro").data ∧
    ¬ imgPat <:+: (replace_image_placeholders envPixabay excNone []
        (flattenMarkers (("intro ").data) [((("cats").data), ((" outro").data))])
        (("s").data)).1 :=
  ⟨by decide,
   (replace_image_placeholders_resolves envPixabay excNone [] (("s").data) (("intro ").data)
     [((("cats").data), ((" outro").data))] (by decide) (by decide) (by decide)).1⟩

/-- C7: whenever the title interaction fails — the client returns Failure
(no response) or any exception is raised during it — generate_title returns
the deterministic fallback "Article About {subject}" instead of propagating
the failure, so title generation never aborts the pipeline. -/
theorem generate_title_fallback (gen : Except Str (Option Str)) (subject : Str)
    (h : (∃ e, gen = .error e) ∨ gen = .ok none) :
    generate_title gen subject = ("Article About ").data ++ subject := by
  rcases h with ⟨e, rfl⟩ | rfl <;> rfl

/-- Scenario A of the spec: subject "coffee brewing" with a failed title
generation yields the fallback title. -/
theorem generate_title_fallback_witness :
    ((∃ e, (Except.ok none : Except Str (Option Str)) = Except.error e) ∨
      (Except.ok none : Except Str (Option Str)) = Except.ok none) ∧
    generate_title (Except.ok none) (("coffee brewing").data) =
      ("Article About coffee brewing").data := by
  refine ⟨Or.inr rfl, ?_⟩
  rw [generate_title_fallback (Except.ok none) (("coffee brewing").data) (Or.inr rfl)]
  decide

/-- C5: generate_seo_article always returns a value — either the success
record, whose title, permalink, subject and category fields are exactly the
pipeline outputs, or an error record carrying the raised message — and never
lets an exception escape: every failure path of the body ends in a returned
error value. -/
theorem generate_seo_article_total (env : ArticleEnv) (mgr : List LinkArticle)
    (cache : UrlCache) (subject : Str) (category : Option Str) :
    (∃ msg, (generate_seo_article env mgr cache subject category).1 =
      GenArticleResult.error msg) ∨
    (∃ article markdown,
      (generate_seo_article env mgr cache subject category).1 =
        GenArticleResult.ok (generate_title env.titleGen subject) article markdown
          ('/' :: env.slugify (generate_title env.titleGen subject)) subject category) := by
  unfold generate_seo_article
  split
  · exact Or.inl ⟨_, rfl⟩
  · split
    · split
      · exact Or.inl ⟨_, rfl⟩
      · split
        · split
          · exact Or.inl ⟨_, rfl⟩
          · exact Or.inr ⟨_, _, rfl⟩
